import Mathlib

/-!
# sacloud-iaas-mainte-dates: the maintenance/server join and its report writers

A shallow embedding of `main.go`.  Go strings are Lean `String`s, that is, valid
UTF-8 (what `encoding/json` decodes always is); on valid UTF-8 Go's bytewise
comparison and the byte tests of the standard library agree with the code-point
versions used here, every byte of a non-ASCII character being above `0x7f`.  The remote service, the
credential resolver and the Go standard library are not part of the repository:
the first two are parameters (`Env`), the library functions the program calls
(`time.Parse`, `encoding/csv`, `encoding/json`, `slices.Sorted`) are transcribed
as far as the program exercises them.
-/

set_option linter.dupNamespace false

namespace MainteDates

/-! ## Errors and outcomes -/

/-- Go `error` value, identified by its message. -/
structure Error where
  msg : String
deriving DecidableEq, Repr

/-! ## `time.Parse(dateLayout, s)` and `checkDateFormat` -/

/-- Go `time.isDigit(s, i)`. -/
def isDigit (s : List Char) (i : Nat) : Bool :=
  match s.get? i with
  | none => false
  | some c => decide ('0' ≤ c) && decide (c ≤ '9')

/-- Numeric value of a digit byte, `c - '0'`. -/
def digitVal (c : Char) : Nat := c.toNat - '0'.toNat

/-- Go `time.leadingInt`: the loop over `s` with the accumulator `x`; `none` is
`errLeadingInt` (overflow), otherwise the value and the unread rest. -/
def leadingInt : List Char → Nat → Option (Nat × List Char)
  | [], x => some (x, [])
  | c :: cs, x =>
    if c < '0' ∨ c > '9' then some (x, c :: cs)
    else if x > 2 ^ 63 / 10 then none
    else
      let x1 := x * 10 + digitVal c
      if x1 > 2 ^ 63 then none else leadingInt cs x1

/-- Go `time.atoi`; `none` is `errAtoi`.  The result is a Go `int`. -/
def atoi (s : List Char) : Option Int :=
  let neg := decide (s.head? = some '-')
  let s1 := if s.head? = some '-' ∨ s.head? = some '+' then s.tail else s
  match leadingInt s1 0 with
  | none => none
  | some (q, rem) =>
    if rem ≠ [] then none
    else if neg then some (-(q : Int)) else some (q : Int)

/-- Go `time.getnum`; `none` is `errBad`. -/
def getnum (s : List Char) (fixed : Bool) : Option (Int × List Char) :=
  if !isDigit s 0 then none
  else if !isDigit s 1 then
    if fixed then none
    else some ((digitVal (s.getD 0 '0') : Int), s.drop 1)
  else some ((digitVal (s.getD 0 '0') * 10 + digitVal (s.getD 1 '0') : Nat), s.drop 2)

/-- Go `time.skip(value, prefix)` for a prefix without spaces (the only
prefixes `dateLayout` has are `"-"` and `""`); `none` is `errBad`. -/
def skip : List Char → List Char → Option (List Char)
  | value, [] => some value
  | [], _ :: _ => none
  | v :: value, p :: pre => if v ≠ p then none else skip value pre

/-- Go `time.isLeap`. -/
def isLeap (year : Int) : Bool :=
  year % 4 == 0 && (year % 100 != 0 || year % 400 == 0)

/-- Go `time.daysBefore`: days before the end of month `m` in a non-leap year. -/
def daysBefore : List Int :=
  [0, 31, 31 + 28, 31 + 28 + 31, 31 + 28 + 31 + 30, 31 + 28 + 31 + 30 + 31,
   31 + 28 + 31 + 30 + 31 + 30, 31 + 28 + 31 + 30 + 31 + 30 + 31,
   31 + 28 + 31 + 30 + 31 + 30 + 31 + 31, 31 + 28 + 31 + 30 + 31 + 30 + 31 + 31 + 30,
   31 + 28 + 31 + 30 + 31 + 30 + 31 + 31 + 30 + 31,
   31 + 28 + 31 + 30 + 31 + 30 + 31 + 31 + 30 + 31 + 30,
   31 + 28 + 31 + 30 + 31 + 30 + 31 + 31 + 30 + 31 + 30 + 31]

/-- Go `time.daysIn(m, year)` for a month `1 ≤ m ≤ 12`. -/
def daysIn (m : Int) (year : Int) : Int :=
  if m == 2 && isLeap year then 29
  else daysBefore.getD m.toNat 0 - daysBefore.getD (m.toNat - 1) 0

/-- The layout constant of `main.go`. -/
def dateLayout : String := "2006-01-02"

/-- Go `time.Parse(dateLayout, value)`, following the chunks `nextStdChunk`
cuts the layout into: `stdLongYear`, the literal `-`, `stdZeroMonth`, the
literal `-`, `stdZeroDay`, end of layout.  `Except.ok (year, month, day)` is
the parsed date, `Except.error` carries the reason of the `ParseError`. -/
def parseDate (value : List Char) : Except String (Int × Int × Int) :=
  -- stdLongYear
  if value.length < 4 ∨ !isDigit value 0 then .error "bad year"
  else
    match atoi (value.take 4) with
    | none => .error "bad year"
    | some year =>
      -- literal "-", stdZeroMonth
      match skip (value.drop 4) ['-'] with
      | none => .error "bad prefix"
      | some v1 =>
        match getnum v1 true with
        | none => .error "bad month"
        | some (month, v2) =>
          if month ≤ 0 ∨ 12 < month then .error "month out of range"
          else
            -- literal "-", stdZeroDay
            match skip v2 ['-'] with
            | none => .error "bad prefix"
            | some v3 =>
              match getnum v3 true with
              | none => .error "bad day"
              | some (day, v4) =>
                -- end of layout
                if v4.length ≠ 0 then .error "extra text"
                else if day < 1 ∨ day > daysIn month year then .error "day out of range"
                else .ok (year, month, day)

/-- `checkDateFormat` of `main.go`: `none` is the `nil` error. -/
def checkDateFormat (dateStr : String) : Option Error :=
  if dateStr = "" then none
  else
    match parseDate dateStr.data with
    | .error _ => some ⟨"date format must be yyyy-mm-dd"⟩
    | .ok _ => none

/-! ## Go slices and maps -/

/-- Go slice value: `nil`, or a (possibly empty) allocated slice. -/
inductive GoSlice (α : Type) where
  | nil : GoSlice α
  | mk (elems : List α) : GoSlice α
deriving DecidableEq, Repr

/-- Elements of a slice, as `range` visits them (none for `nil`). -/
def GoSlice.elems {α : Type} : GoSlice α → List α
  | .nil => []
  | .mk l => l

/-- Go `append(s, x)`: the result is never `nil`. -/
def GoSlice.append {α : Type} (s : GoSlice α) (x : α) : GoSlice α :=
  .mk (s.elems ++ [x])

/-- Go `m[k]` on a map kept as an association list with distinct keys;
`none` is the zero value returned for an absent key. -/
def mapLookup {κ ν : Type} [DecidableEq κ] : List (κ × ν) → κ → Option ν
  | [], _ => none
  | (k1, v1) :: m, k => if k1 = k then some v1 else mapLookup m k

/-- Go `m[k] = v`: overwrite the entry of `k`, or add one. -/
def mapStore {κ ν : Type} [DecidableEq κ] : List (κ × ν) → κ → ν → List (κ × ν)
  | [], k, v => [(k, v)]
  | (k1, v1) :: m, k, v => if k1 = k then (k, v) :: m else (k1, v1) :: mapStore m k v

/-- Go `maps.Keys(m)`, in some order. -/
def mapKeys {κ ν : Type} (m : List (κ × ν)) : List κ := m.map Prod.fst

/-- Go `a < b` on strings: lexicographic (on valid UTF-8 the bytewise order
is the code-point order). -/
def strLt : List Char → List Char → Bool
  | _, [] => false
  | [], _ :: _ => true
  | a :: as, b :: bs => if a < b then true else if b < a then false else strLt as bs

/-- Go `a <= b` on strings. -/
def strLe (a b : String) : Bool := !strLt b.data a.data

/-- Go `slices.Sorted(maps.Keys(m))` for string keys: the keys in ascending order. -/
def sortedKeys {ν : Type} (m : List (String × ν)) : List String :=
  (mapKeys m).insertionSort (fun a b => strLe a b = true)

/-! ## Data model -/

structure MaintenanceseMeta where
  TotalPages : Int
  TotalCount : Int
deriving DecidableEq, Repr

structure MaintenanceseMaintenance where
  Zone : String
  StartAt : String
  InfoURL : String
deriving DecidableEq, Repr

structure Maintenances where
  IsOK : Bool
  Meta : MaintenanceseMeta
  Maintenances : List MaintenanceseMaintenance
deriving DecidableEq, Repr

structure ServersServerInstanceHost where
  Name : String
  InfoURL : String
deriving DecidableEq, Repr

structure ServersServerInstance where
  Host : ServersServerInstanceHost
deriving DecidableEq, Repr

structure ServersServer where
  ID : String
  Name : String
  HostName : String
  Instance : ServersServerInstance
deriving DecidableEq, Repr

structure Servers where
  From : Int
  Count : Int
  Total : Int
  Servers : List ServersServer
  IsOK : Bool
  LogURL : String
deriving DecidableEq, Repr

structure MainteScheduledServer where
  Zone : String
  ID : String
  Name : String
  HostName : String
  HostServerName : String
  MainteURL : String
  MainteStartAt : String
deriving DecidableEq, Repr

/-- The fields of `profile.ConfigValue` the program reads. -/
structure ConfigValue where
  AccessToken : String
  AccessTokenSecret : String
deriving DecidableEq, Repr

/-- `Maintenances.ToMainteInfoURLsInZones`. -/
def Maintenances.ToMainteInfoURLsInZones (m : MainteDates.Maintenances) : List (String × List String) :=
  m.Maintenances.foldl
    (fun infoURLsInZones mainte =>
      let infoURLs := (mapLookup infoURLsInZones mainte.Zone).getD []
      mapStore infoURLsInZones mainte.Zone (infoURLs ++ [mainte.InfoURL]))
    []

/-- `Maintenances.ToMainteByInfoURLs`; the stored pointer `&m.Maintenances[i]` is
represented by the record it points to (records are never written after the fetch). -/
def Maintenances.ToMainteByInfoURLs (m : MainteDates.Maintenances) :
    List (String × MaintenanceseMaintenance) :=
  m.Maintenances.foldl
    (fun mainteByInfoURLs mainte => mapStore mainteByInfoURLs mainte.InfoURL mainte)
    []

/-! ## The remote service and the fetchers -/

/-- What lies outside the program.  `OptionsFromProfile` is
`api.OptionsFromProfile` followed by `ProfileConfigValue`.
`maintenancesResponse prof startAt endAt` is the outcome of lines 342-379 of
`getMaintenances` (build the request, `c.Do`, `io.ReadAll`, `json.Unmarshal`):
the decoded body, or the error of the step that failed.
`serversResponse prof zone mainteInfoURLs` is the same for lines 293-328 of
`getMainteScheduledServers`. -/
structure Env where
  OptionsFromProfile : String → Except Error ConfigValue
  maintenancesResponse : ConfigValue → String → String → Except Error Maintenances
  serversResponse : ConfigValue → String → List String → Except Error Servers

def serverQueryCount : Int := 1000

def maintenancesPageCount : Int := 1000

/-- `getMainteScheduledServers`: the result and the messages it logs (without
the time stamp the logger puts in front). -/
def getMainteScheduledServers (env : Env) (prof : ConfigValue) (zone : String)
    (mainteInfoURLs : List String) : Except Error Servers × List String :=
  match env.serversResponse prof zone mainteInfoURLs with
  | .error e => (.error e, [])
  | .ok s =>
    if s.Total > serverQueryCount then
      (.ok s, ["too many maintenance-scheduled servers returned: " ++ toString s.Total
        ++ " > " ++ toString serverQueryCount])
    else (.ok s, [])

/-- `getMaintenances`. -/
def getMaintenances (env : Env) (prof : ConfigValue) (startAt endAt : String) :
    Except Error Maintenances :=
  match env.maintenancesResponse prof startAt endAt with
  | .error e => .error e
  | .ok m =>
    if m.Meta.TotalCount > maintenancesPageCount then
      .error ⟨"please make start date and end date more closer to each other (too many maintenances returned)"⟩
    else .ok m

/-! ## Report writers

The writers return the text they send to the stream; the stream itself
(`os.Stdout`) is taken to accept every write. -/

/-- Go `csv.validDelim` (every `Char` is a valid rune). -/
def validDelim (r : Char) : Bool :=
  r != '\x00' && r != '"' && r != '\r' && r != '\n' && r != '\ufffd'

/-- Go `unicode.IsSpace`: the Latin-1 spaces and the code points of category
`White_Space` above them. -/
def isSpace (r : Char) : Bool :=
  r == '\t' || r == '\n' || r == '\x0b' || r == '\x0c' || r == '\r' || r == ' '
    || r == '\u0085' || r == '\u00a0' || r == '\u1680'
    || (decide ('\u2000' ≤ r) && decide (r ≤ '\u200a'))
    || r == '\u2028' || r == '\u2029' || r == '\u202f' || r == '\u205f' || r == '\u3000'

/-- Go `(*csv.Writer).fieldNeedsQuotes` with `w.Comma = comma`. -/
def fieldNeedsQuotes (comma : Char) (field : String) : Bool :=
  if field = "" then false
  else if field = "\\." then true
  else if field.data.any (fun c => c == '\n' || c == '\r' || c == '"' || c == comma) then true
  else isSpace (field.data.headD ' ')

/-- The body of a quoted field: every `"` doubled, all else verbatim (`UseCRLF` is off). -/
def csvQuoteBody : List Char → List Char
  | [] => []
  | c :: cs => if c = '"' then '"' :: '"' :: csvQuoteBody cs else c :: csvQuoteBody cs

/-- What `(*csv.Writer).Write` emits for one field. -/
def csvField (comma : Char) (field : String) : List Char :=
  if fieldNeedsQuotes comma field then '"' :: csvQuoteBody field.data ++ ['"']
  else field.data

/-- The fields of a record, each preceded by the delimiter except the first. -/
def csvFields (comma : Char) : List String → List Char
  | [] => []
  | [f] => csvField comma f
  | f :: fs => csvField comma f ++ comma :: csvFields comma fs

/-- Go `(*csv.Writer).Write(record)`: the line written, or `errInvalidDelim`. -/
def csvWrite (comma : Char) (record : List String) : Except Error (List Char) :=
  if !validDelim comma then .error ⟨"csv: invalid field or comment delimiter"⟩
  else .ok (csvFields comma record ++ ['\n'])

/-- The header record of the CSV and TSV reports. -/
def csvHeader : List String :=
  ["Zone", "ID", "Name", "HostName", "MainteStartAt", "HostServerName", "MainteURL"]

/-- The record of one row. -/
def csvRecord (s : MainteScheduledServer) : List String :=
  [s.Zone, s.ID, s.Name, s.HostName, s.MainteStartAt, s.HostServerName, s.MainteURL]

/-- The loop of `writeMainteScheduledServersInCSV` over the rows. -/
def csvWriteRows (delim : Char) : List MainteScheduledServer → Except Error (List Char)
  | [] => .ok []
  | s :: rest =>
    match csvWrite delim (csvRecord s) with
    | .error e => .error e
    | .ok line =>
      match csvWriteRows delim rest with
      | .error e => .error e
      | .ok out => .ok (line ++ out)

/-- `writeMainteScheduledServersInCSV`. -/
def writeMainteScheduledServersInCSV (delim : Char) (servers : GoSlice MainteScheduledServer) :
    Except Error String :=
  match csvWrite delim csvHeader with
  | .error e => .error e
  | .ok header =>
    match csvWriteRows delim servers.elems with
    | .error e => .error e
    | .ok body => .ok ⟨header ++ body⟩

/-- Go `strings.Join(elems, sep)`. -/
def stringsJoin (sep : List Char) : List String → List Char
  | [] => []
  | [a] => a.data
  | a :: as => a.data ++ sep ++ stringsJoin sep as

/-- The labelled fields of one LTSV line. -/
def ltsvFields (s : MainteScheduledServer) : List String :=
  ["Zone:" ++ s.Zone, "ID:" ++ s.ID, "Name:" ++ s.Name, "HostName:" ++ s.HostName,
   "MainteStartAt:" ++ s.MainteStartAt, "HostServerName:" ++ s.HostServerName,
   "MainteURL:" ++ s.MainteURL]

/-- The `line` built in the loop of `writeMainteScheduledServersInLTSV`. -/
def ltsvLine (s : MainteScheduledServer) : List Char :=
  stringsJoin ['\t'] (ltsvFields s) ++ ['\n']

/-- `writeMainteScheduledServersInLTSV`. -/
def writeMainteScheduledServersInLTSV (servers : GoSlice MainteScheduledServer) :
    Except Error String :=
  .ok ⟨(servers.elems.map ltsvLine).flatten⟩

/-- Lower-case hexadecimal digit. -/
def hexDigit (n : Nat) : Char := "0123456789abcdef".data.getD n '0'

/-- Go `encoding/json` string escaping with `escapeHTML` on (the encoder default). -/
def jsonEscape (c : Char) : List Char :=
  if c = '\\' ∨ c = '"' then ['\\', c]
  else if c = '\x08' then ['\\', 'b']
  else if c = '\x0c' then ['\\', 'f']
  else if c = '\n' then ['\\', 'n']
  else if c = '\r' then ['\\', 'r']
  else if c = '\t' then ['\\', 't']
  else if c.toNat < 0x20 ∨ c = '<' ∨ c = '>' ∨ c = '&' then
    ['\\', 'u', '0', '0', hexDigit (c.toNat / 16), hexDigit (c.toNat % 16)]
  else if c = '\u2028' then ['\\', 'u', '2', '0', '2', '8']
  else if c = '\u2029' then ['\\', 'u', '2', '0', '2', '9']
  else [c]

/-- JSON text of a Go string. -/
def jsonString (s : String) : List Char :=
  '"' :: (s.data.map jsonEscape).flatten ++ ['"']

/-- The fields `encoding/json` emits for a `MainteScheduledServer`: the exported
fields under their own names, in declaration order. -/
def jsonFields (s : MainteScheduledServer) : List (String × String) :=
  [("Zone", s.Zone), ("ID", s.ID), ("Name", s.Name), ("HostName", s.HostName),
   ("HostServerName", s.HostServerName), ("MainteURL", s.MainteURL),
   ("MainteStartAt", s.MainteStartAt)]

/-- Comma-joined texts, each preceded by `sep` (the line break and indentation, or nothing). -/
def jsonJoin (sep : List Char) : List (List Char) → List Char
  | [] => []
  | [a] => sep ++ a
  | a :: as => sep ++ a ++ ',' :: jsonJoin sep as

/-- One row as a JSON object; `pad` is the indentation of the object itself when
indenting (`none` for the compact form). -/
def jsonObject (pad : Option (List Char)) (s : MainteScheduledServer) : List Char :=
  match pad with
  | none =>
    '{' :: jsonJoin [] ((jsonFields s).map fun kv => jsonString kv.1 ++ ':' :: jsonString kv.2)
      ++ ['}']
  | some p =>
    '{' :: jsonJoin ('\n' :: p ++ [' ', ' '])
        ((jsonFields s).map fun kv => jsonString kv.1 ++ ':' :: ' ' :: jsonString kv.2)
      ++ '\n' :: p ++ ['}']

/-- Go `json.Marshal` of a `[]MainteScheduledServer`, passed through
`json.Indent(_, "", "  ")` when `indent` is set: a nil slice is `null`, an
empty one `[]`. -/
def jsonSlice (indent : Bool) : GoSlice MainteScheduledServer → List Char
  | .nil => ['n', 'u', 'l', 'l']
  | .mk [] => ['[', ']']
  | .mk (s :: rest) =>
    if indent then
      '[' :: jsonJoin ['\n', ' ', ' '] ((s :: rest).map (jsonObject (some [' ', ' ']))) ++ ['\n', ']']
    else '[' :: jsonJoin [] ((s :: rest).map (jsonObject none)) ++ [']']

/-- `writeMainteScheduledServersInJSON`: `Encode` appends a line break. -/
def writeMainteScheduledServersInJSON (indent : Bool) (servers : GoSlice MainteScheduledServer) :
    Except Error String :=
  .ok ⟨jsonSlice indent servers ++ ['\n']⟩

/-! ## `run` -/

/-- How a call of `run` ends: it returns `nil`, it returns an error, or the
goroutine panics (nil pointer dereference). -/
inductive Exit where
  | ok : Exit
  | error (e : Error) : Exit
  | panic : Exit
deriving DecidableEq, Repr

/-- What the loop over the zones has done so far: the calls of
`getMainteScheduledServers` made (zone and info-URL list), the lines logged,
and the slice `mainteScheduledServers`. -/
structure LoopState where
  queries : List (String × List String)
  logs : List String
  mainteScheduledServers : GoSlice MainteScheduledServer
deriving DecidableEq, Repr

/-- The inner loop of `run` over `servers.Servers`; `none` is the panic of
`mainte.StartAt` on the nil pointer a missed lookup yields. -/
def joinServers (mainteByInfoURLs : List (String × MaintenanceseMaintenance)) (zone : String) :
    List ServersServer → GoSlice MainteScheduledServer → Option (GoSlice MainteScheduledServer)
  | [], acc => some acc
  | server :: rest, acc =>
    match mapLookup mainteByInfoURLs server.Instance.Host.InfoURL with
    | none => none
    | some mainte =>
      joinServers mainteByInfoURLs zone rest
        (acc.append
          { Zone := zone
            ID := server.ID
            Name := server.Name
            HostName := server.HostName
            HostServerName := server.Instance.Host.Name
            MainteStartAt := mainte.StartAt
            MainteURL := server.Instance.Host.InfoURL })

/-- The loop of `run` over `zones`. -/
def zoneLoop (env : Env) (prof : ConfigValue)
    (mainteInfoURLsInZones : List (String × List String))
    (mainteByInfoURLs : List (String × MaintenanceseMaintenance)) :
    List String → LoopState → LoopState × Exit
  | [], st => (st, .ok)
  | zone :: rest, st =>
    let infoURLs := (mapLookup mainteInfoURLsInZones zone).getD []
    let r := getMainteScheduledServers env prof zone infoURLs
    let st1 : LoopState :=
      { st with queries := st.queries ++ [(zone, infoURLs)], logs := st.logs ++ r.2 }
    match r.1 with
    | .error e => (st1, .error e)
    | .ok servers =>
      match joinServers mainteByInfoURLs zone servers.Servers st1.mainteScheduledServers with
      | none => (st1, .panic)
      | some rows =>
        zoneLoop env prof mainteInfoURLsInZones mainteByInfoURLs rest
          { st1 with mainteScheduledServers := rows }

/-- The `switch outputFormat` of `run`: the text written, nothing for a format
that has no case. -/
def writeReport (outputFormat : String) (indent : Bool)
    (servers : GoSlice MainteScheduledServer) : Except Error String :=
  if outputFormat = "csv" then writeMainteScheduledServersInCSV ',' servers
  else if outputFormat = "tsv" then writeMainteScheduledServersInCSV '\t' servers
  else if outputFormat = "ltsv" then writeMainteScheduledServersInLTSV servers
  else if outputFormat = "json" then writeMainteScheduledServersInJSON indent servers
  else .ok ""

/-- Everything observable of one call of `run`: the server queries made, the
lines logged, the text written to standard output, and how the call ended. -/
structure RunResult where
  queries : List (String × List String)
  logs : List String
  stdout : String
  exit : Exit
deriving DecidableEq, Repr

/-- Lines 92-117 of `run`: group the records by zone, sort the zones, index the
records by info-URL, and loop over the zones. -/
def runJoin (env : Env) (prof : ConfigValue) (maintenances : Maintenances) : LoopState × Exit :=
  let mainteInfoURLsInZones := maintenances.ToMainteInfoURLsInZones
  let zones := sortedKeys mainteInfoURLsInZones
  let mainteByInfoURLs := maintenances.ToMainteByInfoURLs
  zoneLoop env prof mainteInfoURLsInZones mainteByInfoURLs zones ⟨[], [], .nil⟩

/-- `run`. -/
def run (env : Env) (profileName startAt endAt outputFormat : String) (indent : Bool) :
    RunResult :=
  match env.OptionsFromProfile profileName with
  | .error e => ⟨[], [], "", .error e⟩
  | .ok prof =>
    match checkDateFormat startAt with
    | some e => ⟨[], [], "", .error e⟩
    | none =>
      match checkDateFormat endAt with
      | some e => ⟨[], [], "", .error e⟩
      | none =>
        match getMaintenances env prof startAt endAt with
        | .error e => ⟨[], [], "", .error e⟩
        | .ok maintenances =>
          match runJoin env prof maintenances with
          | (st, .error e) => ⟨st.queries, st.logs, "", .error e⟩
          | (st, .panic) => ⟨st.queries, st.logs, "", .panic⟩
          | (st, .ok) =>
            match writeReport outputFormat indent st.mainteScheduledServers with
            | .error e => ⟨st.queries, st.logs, "", .error e⟩
            | .ok out => ⟨st.queries, st.logs, out, .ok⟩

/-! ## The date format, as the specification words it -/

/-- The decimal digit `n < 10` as a character. -/
def digitChar (n : Nat) : Char := Char.ofNat (48 + n)

/-- The Gregorian leap-year rule. -/
def gregorianLeap (y : Nat) : Bool :=
  (y % 4 = 0 ∧ y % 100 ≠ 0) ∨ y % 400 = 0

/-- Number of days of month `m` (1 to 12) of year `y`. -/
def daysInMonth (y m : Nat) : Nat :=
  if m = 2 then (if gregorianLeap y then 29 else 28)
  else if m = 4 ∨ m = 6 ∨ m = 9 ∨ m = 11 then 30
  else 31

/-- A valid `yyyy-mm-dd` date: four year digits, `-`, the month 01..12 in two
digits, `-`, a day of that month of that year in two digits, and nothing else. -/
def IsDateString (s : String) : Prop :=
  ∃ y m d : Nat, y ≤ 9999 ∧ 1 ≤ m ∧ m ≤ 12 ∧ 1 ≤ d ∧ d ≤ daysInMonth y m ∧
    s.data =
      [digitChar (y / 1000), digitChar (y / 100 % 10), digitChar (y / 10 % 10), digitChar (y % 10),
       '-', digitChar (m / 10), digitChar (m % 10), '-', digitChar (d / 10), digitChar (d % 10)]

/-! ## The join, as the specification words it -/

/-- The info-URLs of the maintenance records of zone `z`, in fetch order. -/
def infoURLsOfZone (ms : List MaintenanceseMaintenance) (z : String) : List String :=
  (ms.filter (fun r => r.Zone = z)).map (fun r => r.InfoURL)

/-- The last record in fetch order whose info-URL is `u`. -/
def lastWithInfoURL (ms : List MaintenanceseMaintenance) (u : String) :
    Option MaintenanceseMaintenance :=
  (ms.filter (fun r => r.InfoURL = u)).getLast?

/-- The report row of server `sv` found in zone `z`, its maintenance start taken
from the last fetched record with the server's host info-URL. -/
def joinedRow (ms : List MaintenanceseMaintenance) (z : String) (sv : ServersServer) :
    MainteScheduledServer :=
  { Zone := z
    ID := sv.ID
    Name := sv.Name
    HostName := sv.HostName
    HostServerName := sv.Instance.Host.Name
    MainteURL := sv.Instance.Host.InfoURL
    MainteStartAt :=
      match lastWithInfoURL ms sv.Instance.Host.InfoURL with
      | some r => r.StartAt
      | none => "" }

/-- The servers the service returns for zone `z` when queried with that
zone's info-URLs (none when the query fails). -/
def serversOfZone (env : Env) (prof : ConfigValue) (ms : List MaintenanceseMaintenance)
    (z : String) : List ServersServer :=
  match env.serversResponse prof z (infoURLsOfZone ms z) with
  | .ok s => s.Servers
  | .error _ => []

/-- The same service, except that every server response reports `total` as its `Total`. -/
def Env.withTotal (env : Env) (total : Int) : Env :=
  { env with
    serversResponse := fun prof zone urls =>
      match env.serversResponse prof zone urls with
      | .error e => .error e
      | .ok s => .ok { s with Total := total } }

/-! ## Sample services -/

/-- A credential profile. -/
def sampleProfile : ConfigValue := ⟨"token", "secret"⟩

/-- A server response holding one server per requested info-URL. -/
def echoServers (urls : List String) : Servers :=
  { From := 0
    Count := urls.length
    Total := urls.length
    Servers := urls.map (fun u => ⟨"113000000001", "web", "web.example.jp", ⟨⟨"sac-is1-sv001", u⟩⟩⟩)
    IsOK := true
    LogURL := "" }

/-- Three maintenance records, fetched in the order is1b, is1a, is1b. -/
def groupingMaintenances : Maintenances :=
  { IsOK := true
    Meta := ⟨1, 3⟩
    Maintenances :=
      [⟨"is1b", "2024-01-02T00:00:00+09:00", "url2"⟩,
       ⟨"is1a", "2024-01-01T00:00:00+09:00", "url1"⟩,
       ⟨"is1b", "2024-01-03T00:00:00+09:00", "url3"⟩] }

/-- A service with the records of `groupingMaintenances` that answers every
server query with one server per requested info-URL. -/
def groupingEnv : Env :=
  { OptionsFromProfile := fun _ => .ok sampleProfile
    maintenancesResponse := fun _ _ _ => .ok groupingMaintenances
    serversResponse := fun _ _ urls => .ok (echoServers urls) }

/-- One maintenance record in zone is1a. -/
def joinMaintenances : Maintenances :=
  { IsOK := true
    Meta := ⟨1, 1⟩
    Maintenances := [⟨"is1a", "2024-01-01T00:00:00+09:00", "https://x/1"⟩] }

/-- A service with the record of `joinMaintenances` and one server on the host
under maintenance. -/
def joinEnv : Env :=
  { OptionsFromProfile := fun _ => .ok sampleProfile
    maintenancesResponse := fun _ _ _ => .ok joinMaintenances
    serversResponse := fun _ _ urls => .ok (echoServers urls) }

/-- The service of `groupingEnv`, its maintenance response reporting 1001 records. -/
def tooManyEnv : Env :=
  { groupingEnv with
    maintenancesResponse := fun _ _ _ => .ok { groupingMaintenances with Meta := ⟨2, 1001⟩ } }

/-- The service of `groupingEnv`, every server response reporting a `Total` of 1001. -/
def largeTotalEnv : Env := groupingEnv.withTotal 1001

/-- The service of `joinEnv`, except that the server it returns sits on a host
whose info-URL no fetched maintenance record carries. -/
def strayEnv : Env :=
  { joinEnv with
    serversResponse := fun _ _ _ => .ok (echoServers ["https://x/2"]) }

/-- A service with no maintenance scheduled. -/
def emptyEnv : Env :=
  { OptionsFromProfile := fun _ => .ok sampleProfile
    maintenancesResponse := fun _ _ _ => .ok ⟨true, ⟨0, 0⟩, []⟩
    serversResponse := fun _ _ urls => .ok (echoServers urls) }

/-- The service of `groupingEnv`, except that no server sits on a host under maintenance. -/
def noServersEnv : Env :=
  { groupingEnv with
    serversResponse := fun _ _ _ => .ok (echoServers []) }

/-! ## The relation between the CSV and the TSV report, as the specification words it -/

/-- The text `a` with every comma replaced by a tab. -/
def commasToTabs (a : List Char) : List Char :=
  a.map (fun c => if c = ',' then '\t' else c)

/-- The texts `a` and `b` differ only in the delimiter: `b` is `a` with some of
its commas replaced by tabs and every other character unchanged. -/
def DiffersOnlyInDelimiter (a b : List Char) : Prop :=
  List.Forall₂ (fun x y => x = y ∨ (x = ',' ∧ y = '\t')) a b

/-- Records of field texts written out with the delimiter `d` between the
fields of a record and a line break after each record. -/
def renderDelimited (d : Char) (records : List (List (List Char))) : List Char :=
  (records.map (fun fields => [d].intercalate fields ++ ['\n'])).flatten

/-- One report row whose server name contains a comma. -/
def commaRows : GoSlice MainteScheduledServer :=
  .mk [{ Zone := "is1a", ID := "113000000001", Name := "web,1", HostName := "web.example.jp",
         HostServerName := "sac-is1-sv001", MainteURL := "https://x/1",
         MainteStartAt := "2024-01-01T00:00:00+09:00" }]

/-- One report row whose name is quoted under either delimiter (it starts with a
space and holds a quote) and whose other fields hold neither comma nor tab. -/
def plainRows : GoSlice MainteScheduledServer :=
  .mk [{ Zone := "is1a", ID := "113000000001", Name := " web,\"1\"", HostName := "web.example.jp",
         HostServerName := "sac-is1-sv001", MainteURL := "https://x/1",
         MainteStartAt := "2024-01-01T00:00:00+09:00" }]

/-- A report row whose server name contains a tab. -/
def tabRow : MainteScheduledServer :=
  { Zone := "is1a", ID := "113000000001", Name := "web\t1", HostName := "web.example.jp",
    HostServerName := "sac-is1-sv001", MainteURL := "https://x/1",
    MainteStartAt := "2024-01-01T00:00:00+09:00" }

/-- A report row without tab or line break in any field. -/
def plainRow : MainteScheduledServer :=
  { Zone := "is1a", ID := "113000000001", Name := "web 1", HostName := "web.example.jp",
    HostServerName := "sac-is1-sv001", MainteURL := "https://x/1",
    MainteStartAt := "2024-01-01T00:00:00+09:00" }

/-- A report row whose server name contains a line break. -/
def lineBreakRow : MainteScheduledServer :=
  { Zone := "is1a", ID := "113000000001", Name := "web\n1", HostName := "web.example.jp",
    HostServerName := "sac-is1-sv001", MainteURL := "https://x/1",
    MainteStartAt := "2024-01-01T00:00:00+09:00" }

/-- The service of `groupingEnv`, except that every server query, while it
succeeds, returns one server on a host whose info-URL no fetched record carries. -/
def strayGroupingEnv : Env :=
  { groupingEnv with
    serversResponse := fun _ _ _ => .ok (echoServers ["https://x/9"]) }

/-! # Theorems -/

/-! ## Date validation -/

theorem digitChar_spec (k : Nat) (h : k < 10) :
    '0' ≤ digitChar k ∧ digitChar k ≤ '9' ∧ digitVal (digitChar k) = k
      ∧ digitChar k ≠ '-' ∧ digitChar k ≠ '+' := by
  unfold digitChar digitVal
  interval_cases k <;> decide

theorem exists_digitChar (c : Char) (h0 : '0' ≤ c) (h9 : c ≤ '9') :
    ∃ k, k < 10 ∧ c = digitChar k := by
  have h0n : 48 ≤ c.toNat := by rw [Char.le_def] at h0; exact h0
  have h9n : c.toNat ≤ 57 := by rw [Char.le_def] at h9; exact h9
  refine ⟨c.toNat - 48, by omega, ?_⟩
  unfold digitChar
  have : 48 + (c.toNat - 48) = c.toNat := by omega
  rw [this, Char.ofNat_toNat]

theorem not_isDig_iff (c : Char) : (c < '0' ∨ c > '9') ↔ ¬ ('0' ≤ c ∧ c ≤ '9') := by
  constructor
  · rintro (h | h) ⟨h0, h9⟩
    · exact absurd h0 (not_le.mpr h)
    · exact absurd h9 (not_le.mpr h)
  · intro h
    by_cases h0 : '0' ≤ c
    · right
      exact not_le.mp (fun h9 => h ⟨h0, h9⟩)
    · left
      exact not_le.mp h0

theorem getnum_fixed_some (s r : List Char) (n : Int) (h : getnum s true = some (n, r)) :
    ∃ a b, s = a :: b :: r ∧ ('0' ≤ a ∧ a ≤ '9') ∧ ('0' ≤ b ∧ b ≤ '9')
      ∧ n = ((digitVal a * 10 + digitVal b : Nat) : Int) := by
  rcases s with _ | ⟨a, _ | ⟨b, t⟩⟩
  · simp [getnum, isDigit] at h
  · simp [getnum, isDigit] at h
  · simp only [getnum, isDigit] at h
    simp at h
    obtain ⟨⟨ha, ha9⟩, hb, hn, hr⟩ := h
    refine ⟨a, b, by rw [hr], ⟨ha, ha9⟩, hb, ?_⟩
    rw [← hn]
    push_cast
    rfl

theorem skip_dash_some (v r : List Char) (h : skip v ['-'] = some r) : v = '-' :: r := by
  rcases v with _ | ⟨c, t⟩
  · simp [skip] at h
  · simp [skip] at h
    rw [h.1, h.2]

theorem digitVal_le (c : Char) (h : '0' ≤ c ∧ c ≤ '9') : digitVal c ≤ 9 := by
  obtain ⟨k, hk, rfl⟩ := exists_digitChar c h.1 h.2
  rw [(digitChar_spec k hk).2.2.1]
  omega

theorem leadingInt_cons_digit (c : Char) (cs : List Char) (x : Nat)
    (hc : '0' ≤ c ∧ c ≤ '9') (hx : x ≤ 99999) :
    leadingInt (c :: cs) x = leadingInt cs (x * 10 + digitVal c) := by
  have hv := digitVal_le c hc
  have h1 : ¬ (c < '0' ∨ c > '9') := by rw [not_isDig_iff]; exact not_not.mpr hc
  have h2 : ¬ (x > 2 ^ 63 / 10) := by norm_num; omega
  have h3 : ¬ (x * 10 + digitVal c > 2 ^ 63) := by norm_num; omega
  rw [leadingInt]
  simp only [h1, h2, h3, if_false]

theorem leadingInt_cons_other (c : Char) (cs : List Char) (x : Nat)
    (hc : ¬ ('0' ≤ c ∧ c ≤ '9')) :
    leadingInt (c :: cs) x = some (x, c :: cs) := by
  have h1 : c < '0' ∨ c > '9' := (not_isDig_iff c).mpr hc
  rw [leadingInt]
  simp only [h1, if_true]

theorem atoi_digit_head (a : Char) (t : List Char) (ha : '0' ≤ a ∧ a ≤ '9') :
    atoi (a :: t) =
      match leadingInt (a :: t) 0 with
      | none => none
      | some (q, rem) => if rem ≠ [] then none else some (q : Int) := by
  obtain ⟨k, hk, rfl⟩ := exists_digitChar a ha.1 ha.2
  have h := digitChar_spec k hk
  simp only [atoi, List.head?_cons, Option.some.injEq, h.2.2.2.1, h.2.2.2.2, or_self, if_false,
    decide_False]
  rfl

theorem atoi_four (a b c d : Char) (y : Int) (ha : '0' ≤ a ∧ a ≤ '9')
    (h : atoi [a, b, c, d] = some y) :
    ('0' ≤ b ∧ b ≤ '9') ∧ ('0' ≤ c ∧ c ≤ '9') ∧ ('0' ≤ d ∧ d ≤ '9')
      ∧ y = ((digitVal a * 1000 + digitVal b * 100 + digitVal c * 10 + digitVal d : Nat) : Int) := by
  have va := digitVal_le a ha
  rw [atoi_digit_head a _ ha, leadingInt_cons_digit a _ 0 ha (by omega)] at h
  by_cases hb : '0' ≤ b ∧ b ≤ '9'
  · have vb := digitVal_le b hb
    rw [leadingInt_cons_digit b _ _ hb (by omega)] at h
    by_cases hc : '0' ≤ c ∧ c ≤ '9'
    · have vc := digitVal_le c hc
      rw [leadingInt_cons_digit c _ _ hc (by omega)] at h
      by_cases hd : '0' ≤ d ∧ d ≤ '9'
      · rw [leadingInt_cons_digit d _ _ hd (by omega)] at h
        simp [leadingInt] at h
        refine ⟨hb, hc, hd, ?_⟩
        rw [← h]
        push_cast
        ring
      · rw [leadingInt_cons_other d _ _ hd] at h
        simp at h
    · rw [leadingInt_cons_other c _ _ hc] at h
      simp at h
  · rw [leadingInt_cons_other b _ _ hb] at h
    simp at h

theorem atoi_four_digits (a b c d : Char) (ha : '0' ≤ a ∧ a ≤ '9') (hb : '0' ≤ b ∧ b ≤ '9')
    (hc : '0' ≤ c ∧ c ≤ '9') (hd : '0' ≤ d ∧ d ≤ '9') :
    atoi [a, b, c, d]
      = some ((digitVal a * 1000 + digitVal b * 100 + digitVal c * 10 + digitVal d : Nat) : Int) := by
  have va := digitVal_le a ha
  have vb := digitVal_le b hb
  have vc := digitVal_le c hc
  rw [atoi_digit_head a _ ha, leadingInt_cons_digit a _ 0 ha (by omega),
    leadingInt_cons_digit b _ _ hb (by omega), leadingInt_cons_digit c _ _ hc (by omega),
    leadingInt_cons_digit d _ _ hd (by omega)]
  simp [leadingInt]
  ring

theorem parseDate_ok_shape (l : List Char) (r : Int × Int × Int) (h : parseDate l = .ok r) :
    ∃ a b c d e f g k : Char, l = [a, b, c, d, '-', e, f, '-', g, k]
      ∧ ('0' ≤ a ∧ a ≤ '9') ∧ ('0' ≤ b ∧ b ≤ '9') ∧ ('0' ≤ c ∧ c ≤ '9') ∧ ('0' ≤ d ∧ d ≤ '9')
      ∧ ('0' ≤ e ∧ e ≤ '9') ∧ ('0' ≤ f ∧ f ≤ '9') ∧ ('0' ≤ g ∧ g ≤ '9') ∧ ('0' ≤ k ∧ k ≤ '9')
      ∧ 1 ≤ digitVal e * 10 + digitVal f ∧ digitVal e * 10 + digitVal f ≤ 12
      ∧ 1 ≤ digitVal g * 10 + digitVal k
      ∧ ((digitVal g * 10 + digitVal k : Nat) : Int)
          ≤ daysIn ((digitVal e * 10 + digitVal f : Nat) : Int)
              ((digitVal a * 1000 + digitVal b * 100 + digitVal c * 10 + digitVal d : Nat) : Int) := by
  by_cases h1 : l.length < 4 ∨ (!isDigit l 0) = true
  · rw [parseDate, if_pos h1] at h
    cases h
  · rw [parseDate, if_neg h1] at h
    rcases l with _ | ⟨a, _ | ⟨b, _ | ⟨c, _ | ⟨d, t⟩⟩⟩⟩
    · simp at h1
    · simp at h1
    · simp at h1
    · simp at h1
    · have ha : '0' ≤ a ∧ a ≤ '9' := by
        simp [isDigit] at h1
        exact h1
      simp only [List.take_succ_cons, List.take_zero, List.drop_succ_cons, List.drop_zero] at h
      split at h
      · simp at h
      · rename_i year hy
        obtain ⟨hb, hc, hd, hyear⟩ := atoi_four a b c d year ha hy
        split at h
        · simp at h
        · rename_i v1 hv1
          have ht := skip_dash_some _ _ hv1
          split at h
          · simp at h
          · rename_i month v2 hm
            obtain ⟨e, f, hv1e, he, hf, hmonth⟩ := getnum_fixed_some _ _ _ hm
            split at h
            · simp at h
            · rename_i hmr
              split at h
              · simp at h
              · rename_i v3 hv3
                have hv2 := skip_dash_some _ _ hv3
                split at h
                · simp at h
                · rename_i day v4 hday
                  obtain ⟨g, k, hv3e, hg, hk, hdayv⟩ := getnum_fixed_some _ _ _ hday
                  split at h
                  · simp at h
                  · rename_i hv4
                    split at h
                    · simp at h
                    · rename_i hdr
                      have hv4n : v4 = [] := by
                        simpa using hv4
                      refine ⟨a, b, c, d, e, f, g, k, ?_, ha, hb, hc, hd, he, hf, hg, hk, ?_⟩
                      · rw [ht, hv1e, hv2, hv3e, hv4n]
                      · rw [hmonth] at hmr
                        rw [hdayv, hmonth, hyear] at hdr
                        push_neg at hmr hdr
                        refine ⟨?_, ?_, ?_, hdr.2⟩
                        · have := hmr.1
                          omega
                        · have := hmr.2
                          omega
                        · have := hdr.1
                          omega

theorem parseDate_digits (a b c d e f g k : Char)
    (ha : '0' ≤ a ∧ a ≤ '9') (hb : '0' ≤ b ∧ b ≤ '9') (hc : '0' ≤ c ∧ c ≤ '9')
    (hd : '0' ≤ d ∧ d ≤ '9') (he : '0' ≤ e ∧ e ≤ '9') (hf : '0' ≤ f ∧ f ≤ '9')
    (hg : '0' ≤ g ∧ g ≤ '9') (hk : '0' ≤ k ∧ k ≤ '9')
    (hm1 : 1 ≤ digitVal e * 10 + digitVal f) (hm2 : digitVal e * 10 + digitVal f ≤ 12)
    (hd1 : 1 ≤ digitVal g * 10 + digitVal k)
    (hd2 : ((digitVal g * 10 + digitVal k : Nat) : Int)
          ≤ daysIn ((digitVal e * 10 + digitVal f : Nat) : Int)
              ((digitVal a * 1000 + digitVal b * 100 + digitVal c * 10 + digitVal d : Nat) : Int)) :
    parseDate [a, b, c, d, '-', e, f, '-', g, k]
      = .ok (((digitVal a * 1000 + digitVal b * 100 + digitVal c * 10 + digitVal d : Nat) : Int),
          ((digitVal e * 10 + digitVal f : Nat) : Int),
          ((digitVal g * 10 + digitVal k : Nat) : Int)) := by
  have g1 : ∀ (x y : Char) (t : List Char), ('0' ≤ x ∧ x ≤ '9') → ('0' ≤ y ∧ y ≤ '9') →
      getnum (x :: y :: t) true = some (((digitVal x * 10 + digitVal y : Nat) : Int), t) := by
    intro x y t hx hy
    simp [getnum, isDigit, hx, hy]
  have h1 : ¬ ([a, b, c, d, '-', e, f, '-', g, k].length < 4
      ∨ (!isDigit [a, b, c, d, '-', e, f, '-', g, k] 0) = true) := by
    simp [isDigit, ha]
  have h2 : ¬ (((digitVal e * 10 + digitVal f : Nat) : Int) ≤ 0
      ∨ 12 < ((digitVal e * 10 + digitVal f : Nat) : Int)) := by omega
  have h3 : ¬ (((digitVal g * 10 + digitVal k : Nat) : Int) < 1
      ∨ ((digitVal g * 10 + digitVal k : Nat) : Int)
        > daysIn ((digitVal e * 10 + digitVal f : Nat) : Int)
            ((digitVal a * 1000 + digitVal b * 100 + digitVal c * 10 + digitVal d : Nat) : Int)) := by
    push_neg
    exact ⟨by omega, hd2⟩
  have s1 : ∀ t : List Char, skip ('-' :: t) ['-'] = some t := by
    intro t
    simp [skip]
  rw [parseDate, if_neg h1]
  simp only [List.take_succ_cons, List.take_zero, List.drop_succ_cons, List.drop_zero]
  rw [atoi_four_digits a b c d ha hb hc hd]
  dsimp only
  rw [s1]
  dsimp only
  rw [g1 e f _ he hf]
  dsimp only
  rw [if_neg h2, s1]
  dsimp only
  rw [g1 g k _ hg hk]
  dsimp only
  rw [if_neg (by simp), if_neg h3]

theorem isLeap_eq (y : Nat) : isLeap (y : Int) = gregorianLeap y := by
  unfold isLeap gregorianLeap
  by_cases h4 : y % 4 = 0 <;> by_cases h100 : y % 100 = 0 <;> by_cases h400 : y % 400 = 0 <;>
    simp [h4, h100, h400] <;> omega

theorem daysIn_eq (y m : Nat) (h1 : 1 ≤ m) (h12 : m ≤ 12) :
    daysIn (m : Int) (y : Int) = (daysInMonth y m : Int) := by
  unfold daysIn daysInMonth
  rw [isLeap_eq]
  interval_cases m <;> simp [daysBefore]

theorem checkDateFormat_none_iff (s : String) :
    checkDateFormat s = none ↔ s = "" ∨ IsDateString s := by
  constructor
  · intro h
    by_cases hs : s = ""
    · exact Or.inl hs
    · right
      rw [checkDateFormat, if_neg hs] at h
      split at h
      · simp at h
      · rename_i r hr
        obtain ⟨a, b, c, d, e, f, g, k, hl, ha, hb, hc, hd, he, hf, hg, hk, hm1, hm2, hd1, hd2⟩ :=
          parseDate_ok_shape _ _ hr
        obtain ⟨na, hna, rfl⟩ := exists_digitChar a ha.1 ha.2
        obtain ⟨nb, hnb, rfl⟩ := exists_digitChar b hb.1 hb.2
        obtain ⟨nc, hnc, rfl⟩ := exists_digitChar c hc.1 hc.2
        obtain ⟨nd, hnd, rfl⟩ := exists_digitChar d hd.1 hd.2
        obtain ⟨ne, hne, rfl⟩ := exists_digitChar e he.1 he.2
        obtain ⟨nf, hnf, rfl⟩ := exists_digitChar f hf.1 hf.2
        obtain ⟨ng, hng, rfl⟩ := exists_digitChar g hg.1 hg.2
        obtain ⟨nk, hnk, rfl⟩ := exists_digitChar k hk.1 hk.2
        rw [(digitChar_spec na hna).2.2.1, (digitChar_spec nb hnb).2.2.1,
          (digitChar_spec nc hnc).2.2.1, (digitChar_spec nd hnd).2.2.1,
          (digitChar_spec ne hne).2.2.1, (digitChar_spec nf hnf).2.2.1,
          (digitChar_spec ng hng).2.2.1, (digitChar_spec nk hnk).2.2.1] at hd2
        rw [(digitChar_spec ne hne).2.2.1, (digitChar_spec nf hnf).2.2.1] at hm1 hm2
        rw [(digitChar_spec ng hng).2.2.1, (digitChar_spec nk hnk).2.2.1] at hd1
        rw [daysIn_eq _ _ hm1 hm2] at hd2
        refine ⟨na * 1000 + nb * 100 + nc * 10 + nd, ne * 10 + nf, ng * 10 + nk,
          by omega, hm1, hm2, hd1, by exact_mod_cast hd2, ?_⟩
        rw [hl]
        have e1 : (na * 1000 + nb * 100 + nc * 10 + nd) / 1000 = na := by omega
        have e2 : (na * 1000 + nb * 100 + nc * 10 + nd) / 100 % 10 = nb := by omega
        have e3 : (na * 1000 + nb * 100 + nc * 10 + nd) / 10 % 10 = nc := by omega
        have e4 : (na * 1000 + nb * 100 + nc * 10 + nd) % 10 = nd := by omega
        have e5 : (ne * 10 + nf) / 10 = ne := by omega
        have e6 : (ne * 10 + nf) % 10 = nf := by omega
        have e7 : (ng * 10 + nk) / 10 = ng := by omega
        have e8 : (ng * 10 + nk) % 10 = nk := by omega
        rw [e1, e2, e3, e4, e5, e6, e7, e8]
  · rintro (hs | ⟨y, m, d, hy, hm1, hm2, hd1, hd2, hl⟩)
    · simp [checkDateFormat, hs]
    · have hs : s ≠ "" := by
        intro h0
        rw [h0] at hl
        simp at hl
      have hdm : daysInMonth y m ≤ 31 := by
        unfold daysInMonth
        split
        · split <;> omega
        · split <;> omega
      have a1 := digitChar_spec (y / 1000) (by omega)
      have a2 := digitChar_spec (y / 100 % 10) (by omega)
      have a3 := digitChar_spec (y / 10 % 10) (by omega)
      have a4 := digitChar_spec (y % 10) (by omega)
      have a5 := digitChar_spec (m / 10) (by omega)
      have a6 := digitChar_spec (m % 10) (by omega)
      have a7 := digitChar_spec (d / 10) (by omega)
      have a8 := digitChar_spec (d % 10) (by omega)
      have ey : y / 1000 * 1000 + y / 100 % 10 * 100 + y / 10 % 10 * 10 + y % 10 = y := by omega
      have em : m / 10 * 10 + m % 10 = m := by omega
      have ed : d / 10 * 10 + d % 10 = d := by omega
      have hp := parseDate_digits (digitChar (y / 1000)) (digitChar (y / 100 % 10))
        (digitChar (y / 10 % 10)) (digitChar (y % 10)) (digitChar (m / 10)) (digitChar (m % 10))
        (digitChar (d / 10)) (digitChar (d % 10)) ⟨a1.1, a1.2.1⟩ ⟨a2.1, a2.2.1⟩ ⟨a3.1, a3.2.1⟩
        ⟨a4.1, a4.2.1⟩ ⟨a5.1, a5.2.1⟩ ⟨a6.1, a6.2.1⟩ ⟨a7.1, a7.2.1⟩ ⟨a8.1, a8.2.1⟩
        (by rw [a5.2.2.1, a6.2.2.1]; omega) (by rw [a5.2.2.1, a6.2.2.1]; omega)
        (by rw [a7.2.2.1, a8.2.2.1]; omega)
        (by
          rw [a1.2.2.1, a2.2.2.1, a3.2.2.1, a4.2.2.1, a5.2.2.1, a6.2.2.1, a7.2.2.1, a8.2.2.1,
            ey, em, ed, daysIn_eq _ _ hm1 hm2]
          exact_mod_cast hd2)
      rw [checkDateFormat, if_neg hs, hl, hp]

/-! ## Maps -/

theorem mapLookup_mapStore {κ ν : Type} [DecidableEq κ] (m : List (κ × ν)) (k k1 : κ) (v : ν) :
    mapLookup (mapStore m k v) k1 = if k = k1 then some v else mapLookup m k1 := by
  induction m with
  | nil => simp [mapStore, mapLookup]
  | cons p m ih =>
    obtain ⟨k2, v2⟩ := p
    by_cases h : k2 = k
    · subst h
      by_cases h1 : k2 = k1 <;> simp [mapStore, mapLookup, h1]
    · by_cases h1 : k2 = k1
      · subst h1
        simp [mapStore, mapLookup, h, Ne.symm h]
      · simp [mapStore, mapLookup, h, h1, ih]

theorem mem_mapKeys_mapStore {κ ν : Type} [DecidableEq κ] (m : List (κ × ν)) (k k1 : κ) (v : ν) :
    k1 ∈ mapKeys (mapStore m k v) ↔ k1 = k ∨ k1 ∈ mapKeys m := by
  induction m with
  | nil => simp [mapStore, mapKeys]
  | cons p m ih =>
    obtain ⟨k2, v2⟩ := p
    by_cases h : k2 = k
    · subst h
      simp [mapStore, mapKeys]
    · simp only [mapKeys] at ih
      simp only [mapStore, h, if_false, mapKeys, List.map_cons, List.mem_cons, ih]
      tauto

theorem nodup_mapKeys_mapStore {κ ν : Type} [DecidableEq κ] (m : List (κ × ν)) (k : κ) (v : ν)
    (h : (mapKeys m).Nodup) : (mapKeys (mapStore m k v)).Nodup := by
  induction m with
  | nil => simp [mapStore, mapKeys]
  | cons p m ih =>
    obtain ⟨k2, v2⟩ := p
    have h2 : k2 ∉ mapKeys m ∧ (mapKeys m).Nodup := by
      simpa [mapKeys] using h
    by_cases hk : k2 = k
    · subst hk
      simpa [mapStore, mapKeys] using h
    · have hmem := mem_mapKeys_mapStore m k k2 v
      have := ih h2.2
      simp only [mapStore, hk, if_false]
      show (k2 :: mapKeys (mapStore m k v)).Nodup
      rw [List.nodup_cons]
      refine ⟨?_, this⟩
      rw [hmem]
      rintro (h3 | h3)
      · exact hk h3
      · exact h2.1 h3

theorem mem_mapKeys_iff {κ ν : Type} [DecidableEq κ] (m : List (κ × ν)) (k : κ) :
    k ∈ mapKeys m ↔ mapLookup m k ≠ none := by
  induction m with
  | nil => simp [mapKeys, mapLookup]
  | cons p m ih =>
    obtain ⟨k2, v2⟩ := p
    simp only [mapKeys] at ih
    by_cases h : k2 = k
    · simp [mapKeys, mapLookup, h]
    · simp [mapKeys, mapLookup, h, ih, Ne.symm h]

/-! ## Grouping by zone and indexing by info-URL -/

theorem lookup_foldl_zones (ms : List MaintenanceseMaintenance) (acc : List (String × List String))
    (z : String) :
    mapLookup
        (ms.foldl
          (fun infoURLsInZones mainte =>
            mapStore infoURLsInZones mainte.Zone
              ((mapLookup infoURLsInZones mainte.Zone).getD [] ++ [mainte.InfoURL]))
          acc) z
      = if infoURLsOfZone ms z = [] then mapLookup acc z
        else some ((mapLookup acc z).getD [] ++ infoURLsOfZone ms z) := by
  induction ms generalizing acc with
  | nil => simp [infoURLsOfZone]
  | cons r ms ih =>
    rw [List.foldl_cons, ih, mapLookup_mapStore]
    by_cases hz : r.Zone = z
    · subst hz
      by_cases he : infoURLsOfZone ms r.Zone = []
      · simp [infoURLsOfZone] at he
        simp [infoURLsOfZone, he]
      · simp [infoURLsOfZone] at he
        simp [infoURLsOfZone, he]
    · simp [infoURLsOfZone, hz]

theorem keys_foldl_zones (ms : List MaintenanceseMaintenance) (acc : List (String × List String))
    (hacc : (mapKeys acc).Nodup) :
    (mapKeys
        (ms.foldl
          (fun infoURLsInZones mainte =>
            mapStore infoURLsInZones mainte.Zone
              ((mapLookup infoURLsInZones mainte.Zone).getD [] ++ [mainte.InfoURL]))
          acc)).Nodup := by
  induction ms generalizing acc with
  | nil => simpa using hacc
  | cons r ms ih =>
    rw [List.foldl_cons]
    exact ih _ (nodup_mapKeys_mapStore _ _ _ hacc)

theorem infoURLsOfZone_eq_nil (ms : List MaintenanceseMaintenance) (z : String) :
    infoURLsOfZone ms z = [] ↔ ¬ ∃ r, r ∈ ms ∧ r.Zone = z := by
  simp [infoURLsOfZone, List.filter_eq_nil_iff]

theorem lookup_infoURLsInZones (m : Maintenances) (z : String) :
    mapLookup m.ToMainteInfoURLsInZones z
      = if infoURLsOfZone m.Maintenances z = [] then none
        else some (infoURLsOfZone m.Maintenances z) := by
  unfold Maintenances.ToMainteInfoURLsInZones
  rw [lookup_foldl_zones]
  simp [mapLookup]

theorem nodup_keys_infoURLsInZones (m : Maintenances) :
    (mapKeys m.ToMainteInfoURLsInZones).Nodup := by
  unfold Maintenances.ToMainteInfoURLsInZones
  exact keys_foldl_zones _ _ (by simp [mapKeys])

theorem mem_keys_infoURLsInZones (m : Maintenances) (z : String) :
    z ∈ mapKeys m.ToMainteInfoURLsInZones ↔ ∃ r, r ∈ m.Maintenances ∧ r.Zone = z := by
  rw [mem_mapKeys_iff, lookup_infoURLsInZones]
  by_cases h : infoURLsOfZone m.Maintenances z = []
  · have := (infoURLsOfZone_eq_nil _ _).mp h
    simp [h, this]
  · have : ∃ r, r ∈ m.Maintenances ∧ r.Zone = z := by
      by_contra hc
      exact h ((infoURLsOfZone_eq_nil _ _).mpr hc)
    simp [h, this]

theorem lookup_foldl_byURL (ms : List MaintenanceseMaintenance)
    (acc : List (String × MaintenanceseMaintenance)) (u : String) :
    mapLookup
        (ms.foldl (fun mainteByInfoURLs mainte => mapStore mainteByInfoURLs mainte.InfoURL mainte)
          acc) u
      = match lastWithInfoURL ms u with
        | some r => some r
        | none => mapLookup acc u := by
  induction ms generalizing acc with
  | nil => simp [lastWithInfoURL]
  | cons r ms ih =>
    rw [List.foldl_cons, ih, mapLookup_mapStore]
    by_cases hu : r.InfoURL = u
    · simp only [lastWithInfoURL, List.filter_cons, hu, decide_True, if_true, List.getLast?_cons]
      cases (List.filter (fun r => decide (r.InfoURL = u)) ms).getLast? <;> simp
    · simp [lastWithInfoURL, List.filter_cons, hu]

theorem lookup_byInfoURLs (m : Maintenances) (u : String) :
    mapLookup m.ToMainteByInfoURLs u = lastWithInfoURL m.Maintenances u := by
  unfold Maintenances.ToMainteByInfoURLs
  rw [lookup_foldl_byURL]
  cases lastWithInfoURL m.Maintenances u <;> simp [mapLookup]

theorem lastWithInfoURL_isSome (ms : List MaintenanceseMaintenance) (u : String) :
    (∃ r, lastWithInfoURL ms u = some r) ↔ ∃ r, r ∈ ms ∧ r.InfoURL = u := by
  unfold lastWithInfoURL
  constructor
  · rintro ⟨r, hr⟩
    have hmem := List.mem_of_getLast?_eq_some hr
    rw [List.mem_filter] at hmem
    exact ⟨r, hmem.1, by simpa using hmem.2⟩
  · rintro ⟨r, hr, hu⟩
    have hne : List.filter (fun r => decide (r.InfoURL = u)) ms ≠ [] := by
      intro h0
      rw [List.filter_eq_nil_iff] at h0
      exact h0 r hr (by simpa using hu)
    cases hl : (List.filter (fun r => decide (r.InfoURL = u)) ms).getLast? with
    | none => exact absurd (List.getLast?_eq_none_iff.mp hl) hne
    | some x => exact ⟨x, rfl⟩

/-! ## Sorting the zones -/

theorem strLt_iff (a b : List Char) : strLt a b = true ↔ List.Lex (fun x y => x < y) a b := by
  induction a generalizing b with
  | nil =>
    cases b with
    | nil => simp [strLt]
    | cons y ys => simp [strLt, List.Lex.nil]
  | cons x xs ih =>
    cases b with
    | nil => simp [strLt]
    | cons y ys =>
      rw [strLt]
      by_cases hxy : x < y
      · simp [hxy, List.Lex.rel hxy]
      · by_cases hyx : y < x
        · simp only [hxy, hyx, if_false, if_true]
          constructor
          · intro h
            cases h
          · intro h
            cases h with
            | cons h1 => exact absurd hyx (lt_irrefl _)
            | rel h1 => exact absurd h1 hxy
        · have hxe : x = y := le_antisymm (not_lt.mp hyx) (not_lt.mp hxy)
          subst hxe
          simp only [hxy, if_false, ih]
          exact List.Lex.cons_iff.symm

theorem strLe_iff (a b : String) : strLe a b = true ↔ a ≤ b := by
  rw [← not_lt, String.lt_iff_toList_lt]
  unfold strLe
  rw [Bool.not_eq_true', ← Bool.not_eq_true, strLt_iff]
  rfl

theorem strLe_total : IsTotal String (fun a b => strLe a b = true) :=
  ⟨fun a b => by
    rw [strLe_iff, strLe_iff]
    exact le_total a b⟩

theorem strLe_trans : IsTrans String (fun a b => strLe a b = true) :=
  ⟨fun a b c => by
    rw [strLe_iff, strLe_iff, strLe_iff]
    exact le_trans⟩

theorem sortedKeys_perm {ν : Type} (m : List (String × ν)) : (sortedKeys m).Perm (mapKeys m) :=
  List.perm_insertionSort _ _

theorem sortedKeys_sorted {ν : Type} (m : List (String × ν)) (h : (mapKeys m).Nodup) :
    List.Sorted (fun a b => a < b) (sortedKeys m) := by
  haveI := strLe_total
  haveI := strLe_trans
  have h1 : List.Sorted (fun a b => strLe a b = true) (sortedKeys m) :=
    List.sorted_insertionSort _ _
  have h2 : List.Sorted (fun a b : String => a ≤ b) (sortedKeys m) :=
    List.Pairwise.imp (fun {a b} hab => (strLe_iff a b).mp hab) h1
  exact h2.lt_of_le ((sortedKeys_perm m).nodup_iff.mpr h)

/-! ## The loops of `run` -/

theorem getMainteScheduledServers_fst (env : Env) (prof : ConfigValue) (zone : String)
    (urls : List String) :
    (getMainteScheduledServers env prof zone urls).1 = env.serversResponse prof zone urls := by
  unfold getMainteScheduledServers
  split
  · rename_i e he
    rw [he]
  · rename_i s hs
    rw [hs]
    split <;> rfl

theorem joinServers_hit (m : Maintenances) (zone : String) (svs : List ServersServer)
    (acc : GoSlice MainteScheduledServer)
    (h : ∀ sv, sv ∈ svs → ∃ r, r ∈ m.Maintenances ∧ r.InfoURL = sv.Instance.Host.InfoURL) :
    ∃ rows, joinServers m.ToMainteByInfoURLs zone svs acc = some rows
      ∧ rows.elems = acc.elems ++ svs.map (joinedRow m.Maintenances zone) := by
  induction svs generalizing acc with
  | nil => exact ⟨acc, rfl, by simp⟩
  | cons sv svs ih =>
    obtain ⟨r, hr⟩ := (lastWithInfoURL_isSome _ _).mpr (h sv (List.mem_cons_self _ _))
    have hl := lookup_byInfoURLs m sv.Instance.Host.InfoURL
    rw [hr] at hl
    obtain ⟨rows, h1, h2⟩ := ih
      (acc.append
        { Zone := zone
          ID := sv.ID
          Name := sv.Name
          HostName := sv.HostName
          HostServerName := sv.Instance.Host.Name
          MainteStartAt := r.StartAt
          MainteURL := sv.Instance.Host.InfoURL })
      (fun sv1 h1 => h sv1 (List.mem_cons_of_mem _ h1))
    refine ⟨rows, ?_, ?_⟩
    · rw [joinServers, hl]
      exact h1
    · rw [h2]
      simp [GoSlice.append, GoSlice.elems, joinedRow, hr]

theorem joinServers_miss (m : Maintenances) (zone : String) (svs : List ServersServer)
    (acc : GoSlice MainteScheduledServer)
    (h : ∃ sv, sv ∈ svs ∧ ¬ ∃ r, r ∈ m.Maintenances ∧ r.InfoURL = sv.Instance.Host.InfoURL) :
    joinServers m.ToMainteByInfoURLs zone svs acc = none := by
  induction svs generalizing acc with
  | nil =>
    obtain ⟨sv, hsv, _⟩ := h
    cases hsv
  | cons sv svs ih =>
    rw [joinServers, lookup_byInfoURLs]
    cases hl : lastWithInfoURL m.Maintenances sv.Instance.Host.InfoURL with
    | none => rfl
    | some r =>
      obtain ⟨sv1, hsv1, hmiss⟩ := h
      rcases List.mem_cons.mp hsv1 with he | ht
      · subst he
        exact absurd ((lastWithInfoURL_isSome _ _).mp ⟨r, hl⟩) hmiss
      · exact ih _ ⟨sv1, ht, hmiss⟩

theorem lookup_getD_infoURLsInZones (m : Maintenances) (z : String) :
    (mapLookup m.ToMainteInfoURLsInZones z).getD [] = infoURLsOfZone m.Maintenances z := by
  rw [lookup_infoURLsInZones]
  by_cases h : infoURLsOfZone m.Maintenances z = []
  · simp [h]
  · simp [h]

theorem zoneLoop_queries_take (env : Env) (prof : ConfigValue) (m : Maintenances)
    (zs : List String) (st : LoopState) :
    ∃ k, (zoneLoop env prof m.ToMainteInfoURLsInZones m.ToMainteByInfoURLs zs st).1.queries
      = st.queries ++ (zs.take k).map (fun z => (z, infoURLsOfZone m.Maintenances z)) := by
  induction zs generalizing st with
  | nil => exact ⟨0, by simp [zoneLoop]⟩
  | cons z zs ih =>
    rw [zoneLoop]
    simp only [getMainteScheduledServers_fst, lookup_getD_infoURLsInZones]
    split
    · exact ⟨1, by simp⟩
    · split
      · exact ⟨1, by simp⟩
      · rename_i rows _
        obtain ⟨k, hk⟩ := ih
          { queries := st.queries ++ [(z, infoURLsOfZone m.Maintenances z)]
            logs := st.logs ++
              (getMainteScheduledServers env prof z (infoURLsOfZone m.Maintenances z)).2
            mainteScheduledServers := rows }
        exact ⟨k + 1, by rw [hk]; simp⟩

theorem zoneLoop_complete (env : Env) (prof : ConfigValue) (m : Maintenances)
    (zs : List String) (st : LoopState)
    (hok : ∀ z, z ∈ zs →
      ∃ s, env.serversResponse prof z (infoURLsOfZone m.Maintenances z) = .ok s)
    (hhit : ∀ z, z ∈ zs → ∀ sv, sv ∈ serversOfZone env prof m.Maintenances z →
      ∃ r, r ∈ m.Maintenances ∧ r.InfoURL = sv.Instance.Host.InfoURL) :
    (zoneLoop env prof m.ToMainteInfoURLsInZones m.ToMainteByInfoURLs zs st).2 = .ok
      ∧ (zoneLoop env prof m.ToMainteInfoURLsInZones m.ToMainteByInfoURLs zs st).1.queries
        = st.queries ++ zs.map (fun z => (z, infoURLsOfZone m.Maintenances z))
      ∧ (zoneLoop env prof m.ToMainteInfoURLsInZones m.ToMainteByInfoURLs zs
            st).1.mainteScheduledServers.elems
        = st.mainteScheduledServers.elems
          ++ zs.flatMap (fun z =>
              (serversOfZone env prof m.Maintenances z).map (joinedRow m.Maintenances z)) := by
  induction zs generalizing st with
  | nil => simp [zoneLoop]
  | cons z zs ih =>
    obtain ⟨s, hs⟩ := hok z (List.mem_cons_self _ _)
    have hsv : serversOfZone env prof m.Maintenances z = s.Servers := by
      simp [serversOfZone, hs]
    have hh := hhit z (List.mem_cons_self _ _)
    rw [hsv] at hh
    obtain ⟨rows, hj, hrows⟩ := joinServers_hit m z s.Servers st.mainteScheduledServers hh
    rw [zoneLoop]
    simp only [getMainteScheduledServers_fst, lookup_getD_infoURLsInZones, hs, hj]
    obtain ⟨h1, h2, h3⟩ := ih
      { queries := st.queries ++ [(z, infoURLsOfZone m.Maintenances z)]
        logs := st.logs ++
          (getMainteScheduledServers env prof z (infoURLsOfZone m.Maintenances z)).2
        mainteScheduledServers := rows }
      (fun z1 hz1 => hok z1 (List.mem_cons_of_mem _ hz1))
      (fun z1 hz1 => hhit z1 (List.mem_cons_of_mem _ hz1))
    refine ⟨h1, ?_, ?_⟩
    · rw [h2]
      simp
    · rw [h3, hrows]
      simp [List.flatMap_cons, hsv]

theorem zoneLoop_no_panic (env : Env) (prof : ConfigValue) (m : Maintenances)
    (zs : List String) (st : LoopState)
    (hhit : ∀ z, z ∈ zs → ∀ sv, sv ∈ serversOfZone env prof m.Maintenances z →
      ∃ r, r ∈ m.Maintenances ∧ r.InfoURL = sv.Instance.Host.InfoURL) :
    (zoneLoop env prof m.ToMainteInfoURLsInZones m.ToMainteByInfoURLs zs st).2 ≠ .panic := by
  induction zs generalizing st with
  | nil => simp [zoneLoop]
  | cons z zs ih =>
    rw [zoneLoop]
    simp only [getMainteScheduledServers_fst, lookup_getD_infoURLsInZones]
    cases hs : env.serversResponse prof z (infoURLsOfZone m.Maintenances z) with
    | error e => simp
    | ok s =>
      have hsv : serversOfZone env prof m.Maintenances z = s.Servers := by
        simp [serversOfZone, hs]
      have hh := hhit z (List.mem_cons_self _ _)
      rw [hsv] at hh
      obtain ⟨rows, hj, _⟩ := joinServers_hit m z s.Servers st.mainteScheduledServers hh
      simp only [hj]
      exact ih _ (fun z1 hz1 => hhit z1 (List.mem_cons_of_mem _ hz1))

theorem zoneLoop_stray (env : Env) (prof : ConfigValue) (m : Maintenances)
    (zs : List String) (st : LoopState)
    (hok : ∀ z, z ∈ zs →
      ∃ s, env.serversResponse prof z (infoURLsOfZone m.Maintenances z) = .ok s)
    (hstray : ∃ z, z ∈ zs ∧ ∃ sv, sv ∈ serversOfZone env prof m.Maintenances z
      ∧ ¬ ∃ r, r ∈ m.Maintenances ∧ r.InfoURL = sv.Instance.Host.InfoURL) :
    (zoneLoop env prof m.ToMainteInfoURLsInZones m.ToMainteByInfoURLs zs st).2 = .panic := by
  induction zs generalizing st with
  | nil =>
    obtain ⟨z, hz, _⟩ := hstray
    cases hz
  | cons z zs ih =>
    obtain ⟨s, hs⟩ := hok z (List.mem_cons_self _ _)
    have hsv : serversOfZone env prof m.Maintenances z = s.Servers := by
      simp [serversOfZone, hs]
    rw [zoneLoop]
    simp only [getMainteScheduledServers_fst, lookup_getD_infoURLsInZones, hs]
    cases hj : joinServers m.ToMainteByInfoURLs z s.Servers st.mainteScheduledServers with
    | none => rfl
    | some rows =>
      simp only []
      apply ih _ (fun z1 hz1 => hok z1 (List.mem_cons_of_mem _ hz1))
      obtain ⟨z1, hz1, sv, hsv1, hmiss⟩ := hstray
      rcases List.mem_cons.mp hz1 with he | ht
      · subst he
        rw [hsv] at hsv1
        rw [joinServers_miss m z1 s.Servers st.mainteScheduledServers ⟨sv, hsv1, hmiss⟩] at hj
        cases hj
      · exact ⟨z1, ht, sv, hsv1, hmiss⟩

theorem zoneLoop_reaches (env : Env) (prof : ConfigValue) (m : Maintenances)
    (pre : List String) (z : String) (post : List String) (st : LoopState)
    (hok : ∀ z1, z1 ∈ pre →
      ∃ s, env.serversResponse prof z1 (infoURLsOfZone m.Maintenances z1) = .ok s)
    (hhit : ∀ z1, z1 ∈ pre → ∀ sv, sv ∈ serversOfZone env prof m.Maintenances z1 →
      ∃ r, r ∈ m.Maintenances ∧ r.InfoURL = sv.Instance.Host.InfoURL) :
    st.queries ++ (pre ++ [z]).map (fun z => (z, infoURLsOfZone m.Maintenances z))
      <+: (zoneLoop env prof m.ToMainteInfoURLsInZones m.ToMainteByInfoURLs
            (pre ++ z :: post) st).1.queries := by
  induction pre generalizing st with
  | nil =>
    simp only [List.nil_append]
    rw [zoneLoop]
    simp only [getMainteScheduledServers_fst, lookup_getD_infoURLsInZones]
    split
    · simp
    · split
      · simp
      · rename_i rows _
        obtain ⟨k, hk⟩ := zoneLoop_queries_take env prof m post
          { queries := st.queries ++ [(z, infoURLsOfZone m.Maintenances z)]
            logs := st.logs ++
              (getMainteScheduledServers env prof z (infoURLsOfZone m.Maintenances z)).2
            mainteScheduledServers := rows }
        rw [hk]
        simp
  | cons z1 pre ih =>
    obtain ⟨s, hs⟩ := hok z1 (List.mem_cons_self _ _)
    have hsv : serversOfZone env prof m.Maintenances z1 = s.Servers := by
      simp [serversOfZone, hs]
    have hh := hhit z1 (List.mem_cons_self _ _)
    rw [hsv] at hh
    obtain ⟨rows, hj, _⟩ := joinServers_hit m z1 s.Servers st.mainteScheduledServers hh
    simp only [List.cons_append]
    rw [zoneLoop]
    simp only [getMainteScheduledServers_fst, lookup_getD_infoURLsInZones, hs, hj]
    have := ih
      { queries := st.queries ++ [(z1, infoURLsOfZone m.Maintenances z1)]
        logs := st.logs ++
          (getMainteScheduledServers env prof z1 (infoURLsOfZone m.Maintenances z1)).2
        mainteScheduledServers := rows }
      (fun z2 hz2 => hok z2 (List.mem_cons_of_mem _ hz2))
      (fun z2 hz2 => hhit z2 (List.mem_cons_of_mem _ hz2))
    simpa using this

/-! ## The report writers return -/

theorem csvWriteRows_ok (delim : Char) (h : validDelim delim = true)
    (rows : List MainteScheduledServer) :
    csvWriteRows delim rows
      = .ok ((rows.map (fun s => csvFields delim (csvRecord s) ++ ['\n'])).flatten) := by
  induction rows with
  | nil => rfl
  | cons s rows ih => simp [csvWriteRows, csvWrite, h, ih]

theorem writeCSV_ok (delim : Char) (h : validDelim delim = true)
    (servers : GoSlice MainteScheduledServer) :
    writeMainteScheduledServersInCSV delim servers
      = .ok ⟨csvFields delim csvHeader ++ '\n'
          :: (servers.elems.map (fun s => csvFields delim (csvRecord s) ++ ['\n'])).flatten⟩ := by
  simp [writeMainteScheduledServersInCSV, csvWrite, h, csvWriteRows_ok]

theorem writeReport_ok (outputFormat : String) (indent : Bool)
    (servers : GoSlice MainteScheduledServer) :
    ∃ out, writeReport outputFormat indent servers = .ok out := by
  unfold writeReport
  split
  · exact ⟨_, writeCSV_ok ',' (by decide) servers⟩
  · split
    · exact ⟨_, writeCSV_ok '\t' (by decide) servers⟩
    · split
      · exact ⟨_, rfl⟩
      · split
        · exact ⟨_, rfl⟩
        · exact ⟨_, rfl⟩

theorem run_of_join (env : Env) (profileName startAt endAt outputFormat : String)
    (indent : Bool) (prof : ConfigValue) (m : Maintenances)
    (hprof : env.OptionsFromProfile profileName = .ok prof)
    (hstart : checkDateFormat startAt = none) (hend : checkDateFormat endAt = none)
    (hm : getMaintenances env prof startAt endAt = .ok m) :
    run env profileName startAt endAt outputFormat indent
      = match runJoin env prof m with
        | (st, .error e) => ⟨st.queries, st.logs, "", .error e⟩
        | (st, .panic) => ⟨st.queries, st.logs, "", .panic⟩
        | (st, .ok) =>
          match writeReport outputFormat indent st.mainteScheduledServers with
          | .error e => ⟨st.queries, st.logs, "", .error e⟩
          | .ok out => ⟨st.queries, st.logs, out, .ok⟩ := by
  unfold run
  simp only [hprof, hstart, hend, hm]

theorem run_queries_eq (env : Env) (profileName startAt endAt outputFormat : String)
    (indent : Bool) (prof : ConfigValue) (m : Maintenances)
    (hprof : env.OptionsFromProfile profileName = .ok prof)
    (hstart : checkDateFormat startAt = none) (hend : checkDateFormat endAt = none)
    (hm : getMaintenances env prof startAt endAt = .ok m) :
    (run env profileName startAt endAt outputFormat indent).queries
      = (runJoin env prof m).1.queries := by
  rw [run_of_join env profileName startAt endAt outputFormat indent prof m hprof hstart hend hm]
  obtain ⟨out, hout⟩ := writeReport_ok outputFormat indent
    (runJoin env prof m).1.mainteScheduledServers
  cases hj : runJoin env prof m with
  | mk st ex =>
    rw [hj] at hout
    cases ex with
    | ok => simp only [hout]
    | error e => rfl
    | panic => rfl

theorem zoneLoop_withTotal (env : Env) (total : Int) (prof : ConfigValue)
    (g : List (String × List String)) (byURL : List (String × MaintenanceseMaintenance))
    (zs : List String) (st st1 : LoopState) (hq : st.queries = st1.queries)
    (hr : st.mainteScheduledServers = st1.mainteScheduledServers) :
    (zoneLoop (env.withTotal total) prof g byURL zs st).1.queries
        = (zoneLoop env prof g byURL zs st1).1.queries
      ∧ (zoneLoop (env.withTotal total) prof g byURL zs st).1.mainteScheduledServers
        = (zoneLoop env prof g byURL zs st1).1.mainteScheduledServers
      ∧ (zoneLoop (env.withTotal total) prof g byURL zs st).2
        = (zoneLoop env prof g byURL zs st1).2 := by
  induction zs generalizing st st1 with
  | nil => simp [zoneLoop, hq, hr]
  | cons z zs ih =>
    rw [zoneLoop, zoneLoop]
    simp only [getMainteScheduledServers_fst]
    have hw : (env.withTotal total).serversResponse prof z ((mapLookup g z).getD [])
        = match env.serversResponse prof z ((mapLookup g z).getD []) with
          | .error e => .error e
          | .ok s => .ok { s with Total := total } := rfl
    rw [hw]
    cases hs : env.serversResponse prof z ((mapLookup g z).getD []) with
    | error e => simp [hq, hr]
    | ok s =>
      simp only [hr]
      cases hj : joinServers byURL z s.Servers st1.mainteScheduledServers with
      | none => simp [hq]
      | some rows =>
        simp only []
        exact ih _ _ (by simp [hq]) rfl

theorem run_withTotal (env : Env) (total : Int) (profileName startAt endAt outputFormat : String)
    (indent : Bool) :
    (run (env.withTotal total) profileName startAt endAt outputFormat indent).queries
        = (run env profileName startAt endAt outputFormat indent).queries
      ∧ (run (env.withTotal total) profileName startAt endAt outputFormat indent).stdout
        = (run env profileName startAt endAt outputFormat indent).stdout
      ∧ (run (env.withTotal total) profileName startAt endAt outputFormat indent).exit
        = (run env profileName startAt endAt outputFormat indent).exit := by
  unfold run
  have h1 : (env.withTotal total).OptionsFromProfile = env.OptionsFromProfile := rfl
  rw [h1]
  cases env.OptionsFromProfile profileName with
  | error e => simp
  | ok prof =>
    simp only []
    cases checkDateFormat startAt with
    | some e => simp
    | none =>
      simp only []
      cases checkDateFormat endAt with
      | some e => simp
      | none =>
        simp only []
        have h2 : getMaintenances (env.withTotal total) prof startAt endAt
            = getMaintenances env prof startAt endAt := rfl
        rw [h2]
        cases getMaintenances env prof startAt endAt with
        | error e => simp
        | ok m =>
          simp only []
          obtain ⟨hq, hr, hx⟩ := zoneLoop_withTotal env total prof m.ToMainteInfoURLsInZones
            m.ToMainteByInfoURLs (sortedKeys m.ToMainteInfoURLsInZones) ⟨[], [], .nil⟩
            ⟨[], [], .nil⟩ rfl rfl
          unfold runJoin
          simp only []
          cases hA : zoneLoop (env.withTotal total) prof m.ToMainteInfoURLsInZones
            m.ToMainteByInfoURLs (sortedKeys m.ToMainteInfoURLsInZones) ⟨[], [], .nil⟩ with
          | mk stA exA =>
            cases hB : zoneLoop env prof m.ToMainteInfoURLsInZones
              m.ToMainteByInfoURLs (sortedKeys m.ToMainteInfoURLsInZones) ⟨[], [], .nil⟩ with
            | mk stB exB =>
              rw [hA, hB] at hq hr hx
              simp only at hq hr hx
              subst hx
              cases exA with
              | error e => exact ⟨hq, rfl, rfl⟩
              | panic => exact ⟨hq, rfl, rfl⟩
              | ok =>
                simp only [hr]
                cases writeReport outputFormat indent stB.mainteScheduledServers with
                | error e => exact ⟨hq, rfl, rfl⟩
                | ok out => exact ⟨hq, rfl, rfl⟩

/-! ## The claims about the join -/

/-- C1: when every zone's server query succeeds and every returned server's host
info-URL is the info-URL of a fetched record, the rows `run` builds are, zone by
zone in strictly ascending zone order and server by server in response order, the
joined rows (start time of the last record with the server's info-URL); their
number is the number of servers returned, and `run` writes the report of exactly
these rows. -/
theorem run_rows_are_joined (env : Env) (profileName startAt endAt outputFormat : String)
    (indent : Bool) (prof : ConfigValue) (m : Maintenances)
    (hprof : env.OptionsFromProfile profileName = .ok prof)
    (hstart : checkDateFormat startAt = none) (hend : checkDateFormat endAt = none)
    (hm : getMaintenances env prof startAt endAt = .ok m)
    (hok : ∀ z, (∃ r, r ∈ m.Maintenances ∧ r.Zone = z) →
      ∃ s, env.serversResponse prof z (infoURLsOfZone m.Maintenances z) = .ok s)
    (hhit : ∀ z, (∃ r, r ∈ m.Maintenances ∧ r.Zone = z) →
      ∀ sv, sv ∈ serversOfZone env prof m.Maintenances z →
        ∃ r, r ∈ m.Maintenances ∧ r.InfoURL = sv.Instance.Host.InfoURL) :
    ∃ zones : List String,
      List.Sorted (fun a b => a < b) zones
      ∧ (∀ z, z ∈ zones ↔ ∃ r, r ∈ m.Maintenances ∧ r.Zone = z)
      ∧ (runJoin env prof m).2 = .ok
      ∧ (runJoin env prof m).1.mainteScheduledServers.elems
          = zones.flatMap (fun z =>
              (serversOfZone env prof m.Maintenances z).map (joinedRow m.Maintenances z))
      ∧ (∀ row, row ∈ (runJoin env prof m).1.mainteScheduledServers.elems →
          ∃ r, lastWithInfoURL m.Maintenances row.MainteURL = some r
            ∧ row.MainteStartAt = r.StartAt)
      ∧ (runJoin env prof m).1.mainteScheduledServers.elems.length
          = (zones.map (fun z => (serversOfZone env prof m.Maintenances z).length)).sum
      ∧ ∃ out, writeReport outputFormat indent (runJoin env prof m).1.mainteScheduledServers
            = .ok out
          ∧ (run env profileName startAt endAt outputFormat indent).stdout = out
          ∧ (run env profileName startAt endAt outputFormat indent).exit = .ok := by
  have hmem : ∀ z, z ∈ sortedKeys m.ToMainteInfoURLsInZones
      ↔ ∃ r, r ∈ m.Maintenances ∧ r.Zone = z := by
    intro z
    rw [(sortedKeys_perm _).mem_iff, mem_keys_infoURLsInZones]
  obtain ⟨h1, _, h3⟩ := zoneLoop_complete env prof m (sortedKeys m.ToMainteInfoURLsInZones)
    ⟨[], [], .nil⟩ (fun z hz => hok z ((hmem z).mp hz)) (fun z hz => hhit z ((hmem z).mp hz))
  have h3a : (runJoin env prof m).1.mainteScheduledServers.elems
      = (sortedKeys m.ToMainteInfoURLsInZones).flatMap (fun z =>
          (serversOfZone env prof m.Maintenances z).map (joinedRow m.Maintenances z)) := by
    unfold runJoin
    rw [h3]
    rfl
  refine ⟨sortedKeys m.ToMainteInfoURLsInZones,
    sortedKeys_sorted _ (nodup_keys_infoURLsInZones m), hmem, h1, h3a, ?_, ?_, ?_⟩
  · intro row hrow
    rw [h3a, List.mem_flatMap] at hrow
    obtain ⟨z, hz, hrow⟩ := hrow
    rw [List.mem_map] at hrow
    obtain ⟨sv, hsv, rfl⟩ := hrow
    obtain ⟨r, hr⟩ := (lastWithInfoURL_isSome _ _).mpr (hhit z ((hmem z).mp hz) sv hsv)
    exact ⟨r, hr, by simp [joinedRow, hr]⟩
  · rw [h3a, List.length_flatMap]
    congr 1
    apply List.map_congr_left
    intro z _
    simp
  · obtain ⟨out, hout⟩ := writeReport_ok outputFormat indent
      (runJoin env prof m).1.mainteScheduledServers
    refine ⟨out, hout, ?_⟩
    rw [run_of_join env profileName startAt endAt outputFormat indent prof m hprof hstart hend hm]
    have h1a : (runJoin env prof m).2 = .ok := h1
    cases hj : runJoin env prof m with
    | mk st ex =>
      rw [hj] at hout h1a
      simp only at hout h1a
      subst h1a
      simp only [hout]
      exact ⟨trivial, trivial⟩

theorem joinEnv_hit (z : String) (sv : ServersServer)
    (h : sv ∈ serversOfZone joinEnv sampleProfile joinMaintenances.Maintenances z) :
    ∃ r, r ∈ joinMaintenances.Maintenances ∧ r.InfoURL = sv.Instance.Host.InfoURL := by
  simp only [serversOfZone, joinEnv, echoServers, infoURLsOfZone, List.map_map,
    List.mem_map, List.mem_filter] at h
  obtain ⟨r, ⟨hr, _⟩, rfl⟩ := h
  exact ⟨r, hr, rfl⟩

/-- C1 at the sample of the specification: one record for `https://x/1` in is1a
and one server on that host give one row carrying the record's start time. -/
theorem run_rows_are_joined_witness :
    (runJoin joinEnv sampleProfile joinMaintenances).1.mainteScheduledServers.elems
        = [{ Zone := "is1a", ID := "113000000001", Name := "web", HostName := "web.example.jp",
             HostServerName := "sac-is1-sv001", MainteURL := "https://x/1",
             MainteStartAt := "2024-01-01T00:00:00+09:00" }]
      ∧ ∃ zones : List String,
      List.Sorted (fun a b => a < b) zones
      ∧ (∀ z, z ∈ zones ↔ ∃ r, r ∈ joinMaintenances.Maintenances ∧ r.Zone = z)
      ∧ (runJoin joinEnv sampleProfile joinMaintenances).2 = .ok
      ∧ (runJoin joinEnv sampleProfile joinMaintenances).1.mainteScheduledServers.elems
          = zones.flatMap (fun z =>
              (serversOfZone joinEnv sampleProfile joinMaintenances.Maintenances z).map
                (joinedRow joinMaintenances.Maintenances z))
      ∧ (∀ row, row ∈ (runJoin joinEnv sampleProfile joinMaintenances).1.mainteScheduledServers.elems →
          ∃ r, lastWithInfoURL joinMaintenances.Maintenances row.MainteURL = some r
            ∧ row.MainteStartAt = r.StartAt)
      ∧ (runJoin joinEnv sampleProfile joinMaintenances).1.mainteScheduledServers.elems.length
          = (zones.map (fun z =>
              (serversOfZone joinEnv sampleProfile joinMaintenances.Maintenances z).length)).sum
      ∧ ∃ out, writeReport "csv" false
              (runJoin joinEnv sampleProfile joinMaintenances).1.mainteScheduledServers = .ok out
          ∧ (run joinEnv "" "2024-01-01" "" "csv" false).stdout = out
          ∧ (run joinEnv "" "2024-01-01" "" "csv" false).exit = .ok :=
  ⟨by decide,
   run_rows_are_joined joinEnv "" "2024-01-01" "" "csv" false sampleProfile joinMaintenances
    rfl (by decide) (by decide) rfl (fun _ _ => ⟨_, rfl⟩) (fun z _ sv h => joinEnv_hit z sv h)⟩

/-- C2, the claim at a service whose answer for is1a succeeds but holds a server
with an unknown info-URL: the query of is1a succeeds, the run stops in the join
of that zone and is1b is never queried; so a zone is not queried merely because
the queries before it succeeded. -/
theorem run_stops_after_stray_server :
    (∃ s, strayGroupingEnv.serversResponse sampleProfile "is1a"
        (infoURLsOfZone groupingMaintenances.Maintenances "is1a") = .ok s)
      ∧ sortedKeys groupingMaintenances.ToMainteInfoURLsInZones = ["is1a", "is1b"]
      ∧ run strayGroupingEnv "" "" "" "csv" false = ⟨[("is1a", ["url1"])], [], "", .panic⟩
      ∧ ("is1b", ["url2", "url3"]) ∉ (run strayGroupingEnv "" "" "" "csv" false).queries
      ∧ ¬ (∀ (env : Env) (profileName startAt endAt outputFormat : String) (indent : Bool)
            (prof : ConfigValue) (m : Maintenances),
            env.OptionsFromProfile profileName = .ok prof →
            checkDateFormat startAt = none → checkDateFormat endAt = none →
            getMaintenances env prof startAt endAt = .ok m →
            ∀ pre z post, sortedKeys m.ToMainteInfoURLsInZones = pre ++ z :: post →
              (∀ z1, z1 ∈ pre →
                ∃ s, env.serversResponse prof z1 (infoURLsOfZone m.Maintenances z1) = .ok s) →
              (z, infoURLsOfZone m.Maintenances z)
                ∈ (run env profileName startAt endAt outputFormat indent).queries) := by
  refine ⟨⟨_, rfl⟩, by decide, by decide, by decide, ?_⟩
  intro hall
  have hq := hall strayGroupingEnv "" "" "" "csv" false sampleProfile groupingMaintenances
    rfl (by decide) (by decide) rfl ["is1a"] "is1b" [] (by decide) (fun _ _ => ⟨_, rfl⟩)
  revert hq
  decide

/-- C2 amended: the server queries `run` makes are the zones that occur in the
fetched list, each once, in strictly ascending order, each with the non-empty
list of that zone's info-URLs in fetch order: the queries made are always an
initial part of this sequence, the query of a zone is made once the queries of
the zones before it have succeeded and returned only servers whose host
info-URL is that of a fetched record, and all are made when this holds of
every zone. -/
theorem run_queries_by_zone (env : Env) (profileName startAt endAt outputFormat : String)
    (indent : Bool) (prof : ConfigValue) (m : Maintenances)
    (hprof : env.OptionsFromProfile profileName = .ok prof)
    (hstart : checkDateFormat startAt = none) (hend : checkDateFormat endAt = none)
    (hm : getMaintenances env prof startAt endAt = .ok m) :
    ∃ zones : List String,
      List.Sorted (fun a b => a < b) zones
      ∧ (∀ z, z ∈ zones ↔ ∃ r, r ∈ m.Maintenances ∧ r.Zone = z)
      ∧ (∀ z, z ∈ zones → infoURLsOfZone m.Maintenances z ≠ [])
      ∧ (∃ k, (run env profileName startAt endAt outputFormat indent).queries
          = (zones.take k).map (fun z => (z, infoURLsOfZone m.Maintenances z)))
      ∧ (∀ pre z post, zones = pre ++ z :: post →
          (∀ z1, z1 ∈ pre →
            (∃ s, env.serversResponse prof z1 (infoURLsOfZone m.Maintenances z1) = .ok s)
            ∧ ∀ sv, sv ∈ serversOfZone env prof m.Maintenances z1 →
                ∃ r, r ∈ m.Maintenances ∧ r.InfoURL = sv.Instance.Host.InfoURL) →
          (pre ++ [z]).map (fun z => (z, infoURLsOfZone m.Maintenances z))
            <+: (run env profileName startAt endAt outputFormat indent).queries)
      ∧ ((∀ z, z ∈ zones →
            (∃ s, env.serversResponse prof z (infoURLsOfZone m.Maintenances z) = .ok s)
            ∧ ∀ sv, sv ∈ serversOfZone env prof m.Maintenances z →
                ∃ r, r ∈ m.Maintenances ∧ r.InfoURL = sv.Instance.Host.InfoURL) →
          (run env profileName startAt endAt outputFormat indent).queries
            = zones.map (fun z => (z, infoURLsOfZone m.Maintenances z))) := by
  have hmem : ∀ z, z ∈ sortedKeys m.ToMainteInfoURLsInZones
      ↔ ∃ r, r ∈ m.Maintenances ∧ r.Zone = z := by
    intro z
    rw [(sortedKeys_perm _).mem_iff, mem_keys_infoURLsInZones]
  have hq := run_queries_eq env profileName startAt endAt outputFormat indent prof m
    hprof hstart hend hm
  refine ⟨sortedKeys m.ToMainteInfoURLsInZones,
    sortedKeys_sorted _ (nodup_keys_infoURLsInZones m), hmem, ?_, ?_, ?_, ?_⟩
  · intro z hz h0
    exact (infoURLsOfZone_eq_nil _ _).mp h0 ((hmem z).mp hz)
  · obtain ⟨k, hk⟩ := zoneLoop_queries_take env prof m (sortedKeys m.ToMainteInfoURLsInZones)
      ⟨[], [], .nil⟩
    refine ⟨k, ?_⟩
    rw [hq]
    unfold runJoin
    rw [hk]
    rfl
  · intro pre z post hz hpre
    have := zoneLoop_reaches env prof m pre z post ⟨[], [], .nil⟩
      (fun z1 h1 => (hpre z1 h1).1) (fun z1 h1 => (hpre z1 h1).2)
    rw [hq]
    unfold runJoin
    simp only []
    rw [hz]
    simpa using this
  · intro hall
    obtain ⟨_, h2, _⟩ := zoneLoop_complete env prof m (sortedKeys m.ToMainteInfoURLsInZones)
      ⟨[], [], .nil⟩ (fun z hz => (hall z hz).1) (fun z hz => (hall z hz).2)
    rw [hq]
    unfold runJoin
    rw [h2]
    rfl

/-- C2 amended, at the sample of the specification: records fetched in the order
is1b, is1a, is1b give the queries (is1a, [url1]) then (is1b, [url2, url3]). -/
theorem run_queries_by_zone_witness :
    (run groupingEnv "" "" "" "csv" false).queries
        = [("is1a", ["url1"]), ("is1b", ["url2", "url3"])]
      ∧ ∃ zones : List String,
      List.Sorted (fun a b => a < b) zones
      ∧ (∀ z, z ∈ zones ↔ ∃ r, r ∈ groupingMaintenances.Maintenances ∧ r.Zone = z)
      ∧ (∀ z, z ∈ zones → infoURLsOfZone groupingMaintenances.Maintenances z ≠ [])
      ∧ (∃ k, (run groupingEnv "" "" "" "csv" false).queries
          = (zones.take k).map (fun z => (z, infoURLsOfZone groupingMaintenances.Maintenances z)))
      ∧ (∀ pre z post, zones = pre ++ z :: post →
          (∀ z1, z1 ∈ pre →
            (∃ s, groupingEnv.serversResponse sampleProfile z1
                (infoURLsOfZone groupingMaintenances.Maintenances z1) = .ok s)
            ∧ ∀ sv, sv ∈ serversOfZone groupingEnv sampleProfile
                  groupingMaintenances.Maintenances z1 →
                ∃ r, r ∈ groupingMaintenances.Maintenances ∧ r.InfoURL = sv.Instance.Host.InfoURL) →
          (pre ++ [z]).map (fun z => (z, infoURLsOfZone groupingMaintenances.Maintenances z))
            <+: (run groupingEnv "" "" "" "csv" false).queries)
      ∧ ((∀ z, z ∈ zones →
            (∃ s, groupingEnv.serversResponse sampleProfile z
                (infoURLsOfZone groupingMaintenances.Maintenances z) = .ok s)
            ∧ ∀ sv, sv ∈ serversOfZone groupingEnv sampleProfile
                  groupingMaintenances.Maintenances z →
                ∃ r, r ∈ groupingMaintenances.Maintenances ∧ r.InfoURL = sv.Instance.Host.InfoURL) →
          (run groupingEnv "" "" "" "csv" false).queries
            = zones.map (fun z => (z, infoURLsOfZone groupingMaintenances.Maintenances z))) :=
  ⟨by decide,
   run_queries_by_zone groupingEnv "" "" "" "csv" false sampleProfile groupingMaintenances
    rfl (by decide) (by decide) rfl⟩

/-- C10: the keys of the lookup built by `ToMainteByInfoURLs` are exactly the
info-URLs of the fetched records, among them every info-URL sent in a query;
so when every returned server's host info-URL is among the info-URLs sent for
its zone, `run` never panics, and when moreover every query succeeds it
reaches the output stage with one row per returned server. -/
theorem join_lookup_never_misses (env : Env) (profileName startAt endAt outputFormat : String)
    (indent : Bool) (prof : ConfigValue) (m : Maintenances)
    (hprof : env.OptionsFromProfile profileName = .ok prof)
    (hstart : checkDateFormat startAt = none) (hend : checkDateFormat endAt = none)
    (hm : getMaintenances env prof startAt endAt = .ok m)
    (hfilter : ∀ z, (∃ r, r ∈ m.Maintenances ∧ r.Zone = z) →
      ∀ sv, sv ∈ serversOfZone env prof m.Maintenances z →
        sv.Instance.Host.InfoURL ∈ infoURLsOfZone m.Maintenances z) :
    (∀ u, u ∈ mapKeys m.ToMainteByInfoURLs ↔ ∃ r, r ∈ m.Maintenances ∧ r.InfoURL = u)
      ∧ (∀ q, q ∈ (run env profileName startAt endAt outputFormat indent).queries →
          ∀ u, u ∈ q.2 → u ∈ mapKeys m.ToMainteByInfoURLs)
      ∧ (run env profileName startAt endAt outputFormat indent).exit ≠ .panic
      ∧ ((∀ z, (∃ r, r ∈ m.Maintenances ∧ r.Zone = z) →
            ∃ s, env.serversResponse prof z (infoURLsOfZone m.Maintenances z) = .ok s) →
          (run env profileName startAt endAt outputFormat indent).exit = .ok
          ∧ writeReport outputFormat indent (runJoin env prof m).1.mainteScheduledServers
              = .ok (run env profileName startAt endAt outputFormat indent).stdout
          ∧ (runJoin env prof m).1.mainteScheduledServers.elems.length
              = ((run env profileName startAt endAt outputFormat indent).queries.map
                  (fun q => (serversOfZone env prof m.Maintenances q.1).length)).sum) := by
  have hkeys : ∀ u, u ∈ mapKeys m.ToMainteByInfoURLs
      ↔ ∃ r, r ∈ m.Maintenances ∧ r.InfoURL = u := by
    intro u
    rw [mem_mapKeys_iff, lookup_byInfoURLs, ← lastWithInfoURL_isSome]
    cases lastWithInfoURL m.Maintenances u <;> simp
  have hurl : ∀ z u, u ∈ infoURLsOfZone m.Maintenances z →
      ∃ r, r ∈ m.Maintenances ∧ r.InfoURL = u := by
    intro z u hu
    simp only [infoURLsOfZone, List.mem_map, List.mem_filter] at hu
    obtain ⟨r, ⟨hr, _⟩, rfl⟩ := hu
    exact ⟨r, hr, rfl⟩
  have hmem : ∀ z, z ∈ sortedKeys m.ToMainteInfoURLsInZones
      ↔ ∃ r, r ∈ m.Maintenances ∧ r.Zone = z := by
    intro z
    rw [(sortedKeys_perm _).mem_iff, mem_keys_infoURLsInZones]
  have hhit : ∀ z, z ∈ sortedKeys m.ToMainteInfoURLsInZones →
      ∀ sv, sv ∈ serversOfZone env prof m.Maintenances z →
        ∃ r, r ∈ m.Maintenances ∧ r.InfoURL = sv.Instance.Host.InfoURL :=
    fun z hz sv hsv => hurl z _ (hfilter z ((hmem z).mp hz) sv hsv)
  have hq := run_queries_eq env profileName startAt endAt outputFormat indent prof m
    hprof hstart hend hm
  have hrun := run_of_join env profileName startAt endAt outputFormat indent prof m
    hprof hstart hend hm
  refine ⟨hkeys, ?_, ?_, ?_⟩
  · intro q hqm u hu
    obtain ⟨k, hk⟩ := zoneLoop_queries_take env prof m (sortedKeys m.ToMainteInfoURLsInZones)
      ⟨[], [], .nil⟩
    rw [hq] at hqm
    unfold runJoin at hqm
    simp only [] at hqm
    rw [hk] at hqm
    simp only [List.nil_append, List.mem_map] at hqm
    obtain ⟨z, _, rfl⟩ := hqm
    exact (hkeys u).mpr (hurl z u hu)
  · have hnp := zoneLoop_no_panic env prof m (sortedKeys m.ToMainteInfoURLsInZones)
      ⟨[], [], .nil⟩ hhit
    have hnp1 : (runJoin env prof m).2 ≠ .panic := hnp
    rw [hrun]
    obtain ⟨out, hout⟩ := writeReport_ok outputFormat indent
      (runJoin env prof m).1.mainteScheduledServers
    cases hj : runJoin env prof m with
    | mk st ex =>
      rw [hj] at hout hnp1
      simp only at hout hnp1
      cases ex with
      | ok => simp [hout]
      | error e => simp
      | panic => exact absurd rfl hnp1
  · intro hok
    obtain ⟨h1, h2, h3⟩ := zoneLoop_complete env prof m (sortedKeys m.ToMainteInfoURLsInZones)
      ⟨[], [], .nil⟩ (fun z hz => hok z ((hmem z).mp hz)) hhit
    have h1a : (runJoin env prof m).2 = .ok := h1
    have h2a : (runJoin env prof m).1.queries
        = (sortedKeys m.ToMainteInfoURLsInZones).map
            (fun z => (z, infoURLsOfZone m.Maintenances z)) := by
      unfold runJoin
      rw [h2]
      rfl
    have h3a : (runJoin env prof m).1.mainteScheduledServers.elems
        = (sortedKeys m.ToMainteInfoURLsInZones).flatMap (fun z =>
            (serversOfZone env prof m.Maintenances z).map (joinedRow m.Maintenances z)) := by
      unfold runJoin
      rw [h3]
      rfl
    refine ⟨?_, ?_, ?_⟩
    · rw [hrun]
      obtain ⟨out, hout⟩ := writeReport_ok outputFormat indent
        (runJoin env prof m).1.mainteScheduledServers
      cases hj : runJoin env prof m with
      | mk st ex =>
        rw [hj] at hout h1a
        simp only at hout h1a
        subst h1a
        simp [hout]
    · rw [hrun]
      obtain ⟨out, hout⟩ := writeReport_ok outputFormat indent
        (runJoin env prof m).1.mainteScheduledServers
      cases hj : runJoin env prof m with
      | mk st ex =>
        rw [hj] at hout h1a
        simp only at hout h1a
        subst h1a
        simp [hout]
    · rw [hq, h2a, h3a, List.length_flatMap, List.map_map]
      congr 1
      apply List.map_congr_left
      intro z _
      simp

theorem groupingEnv_filter (z : String) (sv : ServersServer)
    (h : sv ∈ serversOfZone groupingEnv sampleProfile groupingMaintenances.Maintenances z) :
    sv.Instance.Host.InfoURL ∈ infoURLsOfZone groupingMaintenances.Maintenances z := by
  simp only [serversOfZone, groupingEnv, echoServers, List.mem_map] at h
  obtain ⟨u, hu, rfl⟩ := h
  exact hu

/-- C10 at a service that answers each query with one server per requested
info-URL: the run ends normally with three rows. -/
theorem join_lookup_never_misses_witness :
    (run groupingEnv "" "" "" "ltsv" false).exit = .ok
      ∧ (runJoin groupingEnv sampleProfile groupingMaintenances).1.mainteScheduledServers.elems.length
          = 3
      ∧ (∀ u, u ∈ mapKeys groupingMaintenances.ToMainteByInfoURLs
          ↔ ∃ r, r ∈ groupingMaintenances.Maintenances ∧ r.InfoURL = u)
      ∧ (∀ q, q ∈ (run groupingEnv "" "" "" "ltsv" false).queries →
          ∀ u, u ∈ q.2 → u ∈ mapKeys groupingMaintenances.ToMainteByInfoURLs)
      ∧ (run groupingEnv "" "" "" "ltsv" false).exit ≠ .panic
      ∧ ((∀ z, (∃ r, r ∈ groupingMaintenances.Maintenances ∧ r.Zone = z) →
            ∃ s, groupingEnv.serversResponse sampleProfile z
              (infoURLsOfZone groupingMaintenances.Maintenances z) = .ok s) →
          (run groupingEnv "" "" "" "ltsv" false).exit = .ok
          ∧ writeReport "ltsv" false
              (runJoin groupingEnv sampleProfile groupingMaintenances).1.mainteScheduledServers
              = .ok (run groupingEnv "" "" "" "ltsv" false).stdout
          ∧ (runJoin groupingEnv sampleProfile
                groupingMaintenances).1.mainteScheduledServers.elems.length
              = ((run groupingEnv "" "" "" "ltsv" false).queries.map
                  (fun q => (serversOfZone groupingEnv sampleProfile
                    groupingMaintenances.Maintenances q.1).length)).sum) :=
  ⟨by decide, by decide,
   join_lookup_never_misses groupingEnv "" "" "" "ltsv" false sampleProfile groupingMaintenances
    rfl (by decide) (by decide) rfl (fun z _ sv h => groupingEnv_filter z sv h)⟩

/-! ## The fetchers -/

/-- C4: for a maintenance response decoded to `m`, `getMaintenances` returns an
error exactly when `m.Meta.TotalCount` exceeds 1000 and returns `m` unchanged
otherwise; on that error `run` ends with the same error, having made no server
query and written nothing. -/
theorem getMaintenances_total_count (env : Env) (prof : ConfigValue) (startAt endAt : String)
    (m : Maintenances) (h : env.maintenancesResponse prof startAt endAt = .ok m) :
    ((∃ e, getMaintenances env prof startAt endAt = .error e) ↔ m.Meta.TotalCount > 1000)
      ∧ (getMaintenances env prof startAt endAt = .ok m ↔ m.Meta.TotalCount ≤ 1000)
      ∧ (∀ r, getMaintenances env prof startAt endAt = .ok r → r = m)
      ∧ (∀ e profileName outputFormat indent,
          env.OptionsFromProfile profileName = .ok prof →
          checkDateFormat startAt = none → checkDateFormat endAt = none →
          getMaintenances env prof startAt endAt = .error e →
          run env profileName startAt endAt outputFormat indent = ⟨[], [], "", .error e⟩) := by
  have hg : getMaintenances env prof startAt endAt
      = if m.Meta.TotalCount > maintenancesPageCount then
          .error ⟨"please make start date and end date more closer to each other (too many maintenances returned)"⟩
        else .ok m := by
    unfold getMaintenances
    rw [h]
  have hc : maintenancesPageCount = 1000 := rfl
  rw [hc] at hg
  refine ⟨?_, ?_, ?_, ?_⟩
  · rw [hg]
    by_cases ht : m.Meta.TotalCount > 1000
    · simp [ht]
    · simp [ht]
  · rw [hg]
    by_cases ht : m.Meta.TotalCount > 1000
    · simp only [ht, if_true]
      constructor
      · intro h1
        cases h1
      · intro h1
        omega
    · simp only [ht, if_false, true_iff]
      omega
  · intro r hr
    rw [hg] at hr
    by_cases ht : m.Meta.TotalCount > 1000
    · simp only [ht, if_true] at hr
      cases hr
    · simp only [ht, if_false] at hr
      cases hr
      rfl
  · intro e profileName outputFormat indent hprof hstart hend he
    unfold run
    simp only [hprof, hstart, hend, he]

/-- C4 at a response reporting 1001 records: `run` ends with the error of
`getMaintenances`, no query made, nothing written. -/
theorem getMaintenances_total_count_witness :
    run tooManyEnv "" "" "" "csv" false
        = ⟨[], [], "", .error ⟨"please make start date and end date more closer to each other (too many maintenances returned)"⟩⟩
      ∧ ((∃ e, getMaintenances tooManyEnv sampleProfile "" "" = .error e)
          ↔ ({ groupingMaintenances with Meta := ⟨2, 1001⟩ } : Maintenances).Meta.TotalCount > 1000)
      ∧ (getMaintenances tooManyEnv sampleProfile "" ""
            = .ok { groupingMaintenances with Meta := ⟨2, 1001⟩ }
          ↔ ({ groupingMaintenances with Meta := ⟨2, 1001⟩ } : Maintenances).Meta.TotalCount ≤ 1000)
      ∧ (∀ r, getMaintenances tooManyEnv sampleProfile "" "" = .ok r →
          r = { groupingMaintenances with Meta := ⟨2, 1001⟩ })
      ∧ (∀ e profileName outputFormat indent,
          tooManyEnv.OptionsFromProfile profileName = .ok sampleProfile →
          checkDateFormat "" = none → checkDateFormat "" = none →
          getMaintenances tooManyEnv sampleProfile "" "" = .error e →
          run tooManyEnv profileName "" "" outputFormat indent = ⟨[], [], "", .error e⟩) :=
  ⟨by decide,
   getMaintenances_total_count tooManyEnv sampleProfile "" ""
    { groupingMaintenances with Meta := ⟨2, 1001⟩ } rfl⟩

/-- C9: for a server response decoded to `s`, `getMainteScheduledServers` returns
`s` and no error whatever `s.Total` is, logging one warning when it exceeds 1000
and nothing otherwise; the loop of `run` then joins all of `s.Servers` and goes
on with the remaining zones, and the queries, the output and the ending of `run`
do not depend on the `Total` the responses report. -/
theorem getMainteScheduledServers_total (env : Env) (prof : ConfigValue) (zone : String)
    (urls : List String) (s : Servers) (h : env.serversResponse prof zone urls = .ok s) :
    (getMainteScheduledServers env prof zone urls).1 = .ok s
      ∧ (getMainteScheduledServers env prof zone urls).2
          = (if s.Total > 1000 then
              ["too many maintenance-scheduled servers returned: " ++ toString s.Total ++ " > 1000"]
             else [])
      ∧ (∀ total, (getMainteScheduledServers (env.withTotal total) prof zone urls).1
          = .ok { s with Total := total })
      ∧ (∀ g byURL rest st, (mapLookup g zone).getD [] = urls →
          zoneLoop env prof g byURL (zone :: rest) st
            = match joinServers byURL zone s.Servers st.mainteScheduledServers with
              | none =>
                ({ queries := st.queries ++ [(zone, urls)]
                   logs := st.logs ++ (getMainteScheduledServers env prof zone urls).2
                   mainteScheduledServers := st.mainteScheduledServers }, .panic)
              | some rows =>
                zoneLoop env prof g byURL rest
                  { queries := st.queries ++ [(zone, urls)]
                    logs := st.logs ++ (getMainteScheduledServers env prof zone urls).2
                    mainteScheduledServers := rows })
      ∧ (∀ total profileName startAt endAt outputFormat indent,
          (run (env.withTotal total) profileName startAt endAt outputFormat indent).queries
              = (run env profileName startAt endAt outputFormat indent).queries
          ∧ (run (env.withTotal total) profileName startAt endAt outputFormat indent).stdout
              = (run env profileName startAt endAt outputFormat indent).stdout
          ∧ (run (env.withTotal total) profileName startAt endAt outputFormat indent).exit
              = (run env profileName startAt endAt outputFormat indent).exit) := by
  refine ⟨?_, ?_, ?_, ?_, ?_⟩
  · rw [getMainteScheduledServers_fst, h]
  · unfold getMainteScheduledServers
    rw [h]
    by_cases ht : s.Total > serverQueryCount
    · have ht1 : s.Total > 1000 := ht
      have hn : toString serverQueryCount = "1000" := by decide
      simp only [ht, ht1, if_true]
      rw [hn, String.append_assoc _ " > " "1000"]
      rfl
    · have ht1 : ¬ s.Total > 1000 := ht
      simp only [ht, ht1, if_false]
  · intro total
    rw [getMainteScheduledServers_fst]
    have hw : (env.withTotal total).serversResponse prof zone urls
        = match env.serversResponse prof zone urls with
          | .error e => .error e
          | .ok s => .ok { s with Total := total } := rfl
    rw [hw, h]
  · intro g byURL rest st hu
    rw [zoneLoop]
    simp only [getMainteScheduledServers_fst, hu, h]
  · intro total profileName startAt endAt outputFormat indent
    exact run_withTotal env total profileName startAt endAt outputFormat indent

/-- C9 at a service whose server responses report a `Total` of 1001: the
response is returned as it is, one warning is logged, and the run is that of
the same service reporting small totals. -/
theorem getMainteScheduledServers_total_witness :
    (run largeTotalEnv "" "" "" "csv" false).logs
        = ["too many maintenance-scheduled servers returned: 1001 > 1000",
           "too many maintenance-scheduled servers returned: 1001 > 1000"]
      ∧ (run largeTotalEnv "" "" "" "csv" false).exit = .ok
      ∧ (getMainteScheduledServers largeTotalEnv sampleProfile "is1a" ["url1"]).1
          = .ok { echoServers ["url1"] with Total := 1001 }
      ∧ (getMainteScheduledServers largeTotalEnv sampleProfile "is1a" ["url1"]).2
          = (if ({ echoServers ["url1"] with Total := 1001 } : Servers).Total > 1000 then
              ["too many maintenance-scheduled servers returned: "
                ++ toString ({ echoServers ["url1"] with Total := 1001 } : Servers).Total ++ " > 1000"]
             else [])
      ∧ (∀ total, (getMainteScheduledServers (largeTotalEnv.withTotal total) sampleProfile
            "is1a" ["url1"]).1
          = .ok { ({ echoServers ["url1"] with Total := 1001 } : Servers) with Total := total })
      ∧ (∀ g byURL rest st, (mapLookup g "is1a").getD [] = ["url1"] →
          zoneLoop largeTotalEnv sampleProfile g byURL ("is1a" :: rest) st
            = match joinServers byURL "is1a"
                ({ echoServers ["url1"] with Total := 1001 } : Servers).Servers
                st.mainteScheduledServers with
              | none =>
                ({ queries := st.queries ++ [("is1a", ["url1"])]
                   logs := st.logs
                     ++ (getMainteScheduledServers largeTotalEnv sampleProfile "is1a" ["url1"]).2
                   mainteScheduledServers := st.mainteScheduledServers }, .panic)
              | some rows =>
                zoneLoop largeTotalEnv sampleProfile g byURL rest
                  { queries := st.queries ++ [("is1a", ["url1"])]
                    logs := st.logs
                      ++ (getMainteScheduledServers largeTotalEnv sampleProfile "is1a" ["url1"]).2
                    mainteScheduledServers := rows })
      ∧ (∀ total profileName startAt endAt outputFormat indent,
          (run (largeTotalEnv.withTotal total) profileName startAt endAt outputFormat indent).queries
              = (run largeTotalEnv profileName startAt endAt outputFormat indent).queries
          ∧ (run (largeTotalEnv.withTotal total) profileName startAt endAt outputFormat indent).stdout
              = (run largeTotalEnv profileName startAt endAt outputFormat indent).stdout
          ∧ (run (largeTotalEnv.withTotal total) profileName startAt endAt outputFormat indent).exit
              = (run largeTotalEnv profileName startAt endAt outputFormat indent).exit) :=
  ⟨by decide, by decide,
   getMainteScheduledServers_total largeTotalEnv sampleProfile "is1a" ["url1"]
    { echoServers ["url1"] with Total := 1001 } rfl⟩

/-! ## Date validation, the claim -/

/-- C3: `checkDateFormat` returns no error exactly for the empty string and for
the valid `yyyy-mm-dd` dates, and its one error for every other string, among
them `2024-1-5`, `2024-02-30`, `2024-01-01` followed by a space, and `20240101`. -/
theorem checkDateFormat_accepts_iff (s : String) :
    (checkDateFormat s = none ↔ s = "" ∨ IsDateString s)
      ∧ (checkDateFormat s = none
          ∨ checkDateFormat s = some ⟨"date format must be yyyy-mm-dd"⟩)
      ∧ checkDateFormat "2024-1-5" = some ⟨"date format must be yyyy-mm-dd"⟩
      ∧ checkDateFormat "2024-02-30" = some ⟨"date format must be yyyy-mm-dd"⟩
      ∧ checkDateFormat "2024-01-01 " = some ⟨"date format must be yyyy-mm-dd"⟩
      ∧ checkDateFormat "20240101" = some ⟨"date format must be yyyy-mm-dd"⟩
      ∧ checkDateFormat "2024-02-29" = none := by
  refine ⟨checkDateFormat_none_iff s, ?_, by decide, by decide, by decide, by decide, by decide⟩
  unfold checkDateFormat
  split
  · exact Or.inl rfl
  · split
    · exact Or.inr rfl
    · exact Or.inl rfl

/-! ## Where the code leaves the specification -/

/-- C5, the code at the failing input: a server on a host whose info-URL no
fetched record carries makes `run` panic on the nil record; it does not return
an error.  So it is whenever the queries succeed and some returned server has
such an info-URL: the run ends in the panic, nothing written. -/
theorem run_stray_server_panics :
    run strayEnv "" "" "" "csv" false = ⟨[("is1a", ["https://x/1"])], [], "", .panic⟩
      ∧ (∀ e, (run strayEnv "" "" "" "csv" false).exit ≠ .error e)
      ∧ (∀ (env : Env) (profileName startAt endAt outputFormat : String) (indent : Bool)
          (prof : ConfigValue) (m : Maintenances),
          env.OptionsFromProfile profileName = .ok prof →
          checkDateFormat startAt = none → checkDateFormat endAt = none →
          getMaintenances env prof startAt endAt = .ok m →
          (∀ z, (∃ r, r ∈ m.Maintenances ∧ r.Zone = z) →
            ∃ s, env.serversResponse prof z (infoURLsOfZone m.Maintenances z) = .ok s) →
          (∃ z, (∃ r, r ∈ m.Maintenances ∧ r.Zone = z)
            ∧ ∃ sv, sv ∈ serversOfZone env prof m.Maintenances z
              ∧ ¬ ∃ r, r ∈ m.Maintenances ∧ r.InfoURL = sv.Instance.Host.InfoURL) →
          (run env profileName startAt endAt outputFormat indent).exit = .panic
            ∧ (run env profileName startAt endAt outputFormat indent).stdout = "") := by
  have h : run strayEnv "" "" "" "csv" false = ⟨[("is1a", ["https://x/1"])], [], "", .panic⟩ := by
    decide
  refine ⟨h, ?_, ?_⟩
  · intro e he
    rw [h] at he
    cases he
  · intro env profileName startAt endAt outputFormat indent prof m hprof hstart hend hm hok hstray
    have hmem : ∀ z, z ∈ sortedKeys m.ToMainteInfoURLsInZones
        ↔ ∃ r, r ∈ m.Maintenances ∧ r.Zone = z := by
      intro z
      rw [(sortedKeys_perm _).mem_iff, mem_keys_infoURLsInZones]
    obtain ⟨z, hz, hsv⟩ := hstray
    have hp : (runJoin env prof m).2 = .panic :=
      zoneLoop_stray env prof m (sortedKeys m.ToMainteInfoURLsInZones) ⟨[], [], .nil⟩
        (fun z1 hz1 => hok z1 ((hmem z1).mp hz1)) ⟨z, (hmem z).mpr hz, hsv⟩
    rw [run_of_join env profileName startAt endAt outputFormat indent prof m hprof hstart hend hm]
    cases hj : runJoin env prof m with
    | mk st ex =>
      rw [hj] at hp
      simp only at hp
      subst hp
      exact ⟨rfl, rfl⟩

/-- C6, the code at the failing input: with no row joined the slice is still
nil and the JSON written is `null`, indented or not, whether no record was
fetched or no server was returned; an allocated empty slice would be written
as `[]`. -/
theorem run_empty_json_is_null :
    (run emptyEnv "" "" "" "json" false).stdout = "null\n"
      ∧ (run emptyEnv "" "" "" "json" true).stdout = "null\n"
      ∧ (run noServersEnv "" "" "" "json" false).stdout = "null\n"
      ∧ (run noServersEnv "" "" "" "json" true).stdout = "null\n"
      ∧ (run emptyEnv "" "" "" "json" false).exit = .ok
      ∧ writeMainteScheduledServersInJSON false (.mk []) = .ok "[]\n" := by
  refine ⟨by decide, by decide, by decide, by decide, by decide, rfl⟩

/-! ## CSV and TSV -/

set_option maxRecDepth 8000

theorem any_special_congr (l : List Char) (hc : ',' ∉ l) (ht : '\t' ∉ l) :
    l.any (fun c => c == '\n' || c == '\r' || c == '"' || c == ',')
      = l.any (fun c => c == '\n' || c == '\r' || c == '"' || c == '\t') := by
  induction l with
  | nil => rfl
  | cons x xs ih =>
    have hx1 : x ≠ ',' := fun h => hc (by simp [h])
    have hx2 : x ≠ '\t' := fun h => ht (by simp [h])
    have hxs1 : ',' ∉ xs := fun h => hc (List.mem_cons_of_mem _ h)
    have hxs2 : '\t' ∉ xs := fun h => ht (List.mem_cons_of_mem _ h)
    rw [List.any_cons, List.any_cons, ih hxs1 hxs2]
    have e1 : (x == ',') = false := by simpa using hx1
    have e2 : (x == '\t') = false := by simpa using hx2
    rw [e1, e2]

theorem fieldNeedsQuotes_congr (f : String) (hc : ',' ∉ f.data) (ht : '\t' ∉ f.data) :
    fieldNeedsQuotes ',' f = fieldNeedsQuotes '\t' f := by
  unfold fieldNeedsQuotes
  rw [any_special_congr f.data hc ht]

theorem csvField_congr (f : String) (hc : ',' ∉ f.data) (ht : '\t' ∉ f.data) :
    csvField ',' f = csvField '\t' f := by
  unfold csvField
  rw [fieldNeedsQuotes_congr f hc ht]

theorem mem_csvQuoteBody (l : List Char) (c : Char) (h : c ∈ csvQuoteBody l) :
    c ∈ l ∨ c = '"' := by
  induction l with
  | nil => simp [csvQuoteBody] at h
  | cons x xs ih =>
    rw [csvQuoteBody] at h
    split at h
    · simp only [List.mem_cons] at h
      rcases h with h | h | h
      · exact Or.inr h
      · exact Or.inr h
      · rcases ih h with h1 | h1
        · exact Or.inl (List.mem_cons_of_mem _ h1)
        · exact Or.inr h1
    · simp only [List.mem_cons] at h
      rcases h with h | h
      · exact Or.inl (by simp [h])
      · rcases ih h with h1 | h1
        · exact Or.inl (List.mem_cons_of_mem _ h1)
        · exact Or.inr h1

theorem comma_not_mem_csvField (d : Char) (f : String) (hc : ',' ∉ f.data) :
    ',' ∉ csvField d f := by
  unfold csvField
  split
  · intro h
    rcases List.mem_cons.mp h with h | h
    · exact absurd h (by decide)
    · rcases List.mem_append.mp h with h | h
      · rcases mem_csvQuoteBody _ _ h with h1 | h1
        · exact hc h1
        · exact absurd h1 (by decide)
      · rw [List.mem_singleton] at h
        exact absurd h (by decide)
  · exact hc

theorem commasToTabs_of_not_mem (l : List Char) (h : ',' ∉ l) : commasToTabs l = l := by
  unfold commasToTabs
  induction l with
  | nil => rfl
  | cons x xs ih =>
    have hx : x ≠ ',' := fun hx => h (by simp [hx])
    have hxs : ',' ∉ xs := fun hm => h (List.mem_cons_of_mem _ hm)
    simp [hx, ih hxs]

theorem commasToTabs_append (a b : List Char) :
    commasToTabs (a ++ b) = commasToTabs a ++ commasToTabs b := by
  simp [commasToTabs]

theorem csvHeader_plain (f : String) (h : f ∈ csvHeader) : ',' ∉ f.data ∧ '\t' ∉ f.data := by
  simp only [csvHeader, List.mem_cons, List.mem_singleton, List.not_mem_nil, or_false] at h
  rcases h with h | h | h | h | h | h | h <;> subst h <;> decide

/-- C7, the claim at a row whose name contains a comma: the CSV report quotes
the name and the TSV report does not, so the two do not differ only in the
delimiter. -/
theorem csv_tsv_quoting_differs :
    writeMainteScheduledServersInCSV ',' commaRows
        = .ok "Zone,ID,Name,HostName,MainteStartAt,HostServerName,MainteURL\nis1a,113000000001,\"web,1\",web.example.jp,2024-01-01T00:00:00+09:00,sac-is1-sv001,https://x/1\n"
      ∧ writeMainteScheduledServersInCSV '\t' commaRows
        = .ok "Zone\tID\tName\tHostName\tMainteStartAt\tHostServerName\tMainteURL\nis1a\t113000000001\tweb,1\tweb.example.jp\t2024-01-01T00:00:00+09:00\tsac-is1-sv001\thttps://x/1\n"
      ∧ csvField ',' "web,1" ≠ csvField '\t' "web,1"
      ∧ ¬ DiffersOnlyInDelimiter
          "Zone,ID,Name,HostName,MainteStartAt,HostServerName,MainteURL\nis1a,113000000001,\"web,1\",web.example.jp,2024-01-01T00:00:00+09:00,sac-is1-sv001,https://x/1\n".data
          "Zone\tID\tName\tHostName\tMainteStartAt\tHostServerName\tMainteURL\nis1a\t113000000001\tweb,1\tweb.example.jp\t2024-01-01T00:00:00+09:00\tsac-is1-sv001\thttps://x/1\n".data := by
  refine ⟨rfl, rfl, by decide, ?_⟩
  intro h
  have := List.Forall₂.length_eq h
  revert this
  decide

theorem csvFields_eq_intercalate (d : Char) (record : List String) :
    csvFields d record = [d].intercalate (record.map (csvField d)) := by
  induction record with
  | nil => rfl
  | cons f fs ih =>
    cases fs with
    | nil => simp [csvFields, List.intercalate]
    | cons g gs =>
      have e : csvFields d (f :: g :: gs) = csvField d f ++ d :: csvFields d (g :: gs) := rfl
      rw [e, ih]
      simp [List.intercalate, List.intersperse]

theorem writeCSV_render (d : Char) (h : validDelim d = true)
    (servers : GoSlice MainteScheduledServer) :
    writeMainteScheduledServersInCSV d servers
      = .ok ⟨renderDelimited d
          ((csvHeader :: servers.elems.map csvRecord).map (fun rec => rec.map (csvField d)))⟩ := by
  rw [writeCSV_ok d h]
  congr 2
  simp only [renderDelimited, List.map_cons, List.flatten_cons, List.map_map,
    csvFields_eq_intercalate, List.append_assoc, List.singleton_append]
  rfl

theorem differsOnlyInDelimiter_refl (l : List Char) : DiffersOnlyInDelimiter l l := by
  unfold DiffersOnlyInDelimiter
  induction l with
  | nil => exact List.Forall₂.nil
  | cons x xs ih => exact List.Forall₂.cons (Or.inl rfl) ih

theorem differsOnlyInDelimiter_append (a b c d : List Char)
    (h1 : DiffersOnlyInDelimiter a b) (h2 : DiffersOnlyInDelimiter c d) :
    DiffersOnlyInDelimiter (a ++ c) (b ++ d) := by
  unfold DiffersOnlyInDelimiter at *
  induction h1 with
  | nil => exact h2
  | cons hxy _ ih => exact List.Forall₂.cons hxy ih

theorem differsOnlyInDelimiter_record (fields : List (List Char)) :
    DiffersOnlyInDelimiter ([','].intercalate fields ++ ['\n'])
      (['\t'].intercalate fields ++ ['\n']) := by
  apply differsOnlyInDelimiter_append _ _ _ _ _ (differsOnlyInDelimiter_refl _)
  induction fields with
  | nil => exact List.Forall₂.nil
  | cons f fs ih =>
    cases fs with
    | nil =>
      simpa [List.intercalate, List.intersperse] using differsOnlyInDelimiter_refl f
    | cons g gs =>
      have e : ∀ d : Char, [d].intercalate (f :: g :: gs) = f ++ d :: [d].intercalate (g :: gs) := by
        intro d
        simp [List.intercalate, List.intersperse]
      rw [e ',', e '\t']
      exact differsOnlyInDelimiter_append _ _ _ _ (differsOnlyInDelimiter_refl f)
        (List.Forall₂.cons (Or.inr ⟨rfl, rfl⟩) ih)

theorem differsOnlyInDelimiter_render (records : List (List (List Char))) :
    DiffersOnlyInDelimiter (renderDelimited ',' records) (renderDelimited '\t' records) := by
  unfold renderDelimited
  induction records with
  | nil => exact List.Forall₂.nil
  | cons r rs ih =>
    simp only [List.map_cons, List.flatten_cons]
    exact differsOnlyInDelimiter_append _ _ _ _ (differsOnlyInDelimiter_record r) ih

theorem csvField_eq_of_quotes (f : String)
    (h : fieldNeedsQuotes ',' f = fieldNeedsQuotes '\t' f) : csvField ',' f = csvField '\t' f := by
  unfold csvField
  rw [h]

theorem commasToTabs_intercalate (fields : List (List Char))
    (h : ∀ l, l ∈ fields → ',' ∉ l) :
    commasToTabs ([','].intercalate fields) = ['\t'].intercalate fields := by
  induction fields with
  | nil => rfl
  | cons f fs ih =>
    have hf := h f (List.mem_cons_self _ _)
    have hfs : ∀ l, l ∈ fs → ',' ∉ l := fun l hl => h l (List.mem_cons_of_mem _ hl)
    cases fs with
    | nil =>
      simpa [List.intercalate, List.intersperse] using commasToTabs_of_not_mem f hf
    | cons g gs =>
      have e : ∀ d : Char, [d].intercalate (f :: g :: gs) = f ++ d :: [d].intercalate (g :: gs) := by
        intro d
        simp [List.intercalate, List.intersperse]
      have hcons : ∀ x : List Char, commasToTabs (',' :: x) = '\t' :: commasToTabs x := by
        intro x
        simp [commasToTabs]
      rw [e ',', e '\t', commasToTabs_append, commasToTabs_of_not_mem f hf, hcons, ih hfs]

theorem commasToTabs_render (records : List (List (List Char)))
    (h : ∀ r, r ∈ records → ∀ l, l ∈ r → ',' ∉ l) :
    commasToTabs (renderDelimited ',' records) = renderDelimited '\t' records := by
  unfold renderDelimited
  induction records with
  | nil => rfl
  | cons r rs ih =>
    simp only [List.map_cons, List.flatten_cons]
    rw [commasToTabs_append, commasToTabs_append,
      commasToTabs_intercalate r (h r (List.mem_cons_self _ _)),
      ih (fun r1 hr1 => h r1 (List.mem_cons_of_mem _ hr1))]
    rfl

/-- C7 amended: when every field of every row is quoted under both delimiters
or under neither (so whenever no field holds a comma or a tab), both reports
are written and are the same records of the same field texts, quoting
included, put out with a comma resp. a tab between the fields: the TSV report
is the CSV report with field-separating commas replaced by tabs and nothing
else changed, and with every comma replaced when no field holds one. -/
theorem csv_tsv_differ_only_in_delimiter (rows : GoSlice MainteScheduledServer)
    (h : ∀ r, r ∈ rows.elems → ∀ f, f ∈ csvRecord r →
      fieldNeedsQuotes ',' f = fieldNeedsQuotes '\t' f) :
    ∃ texts c t, writeMainteScheduledServersInCSV ',' rows = .ok c
      ∧ writeMainteScheduledServersInCSV '\t' rows = .ok t
      ∧ texts = (csvHeader :: rows.elems.map csvRecord).map (fun rec => rec.map (csvField ','))
      ∧ texts = (csvHeader :: rows.elems.map csvRecord).map (fun rec => rec.map (csvField '\t'))
      ∧ c.data = renderDelimited ',' texts
      ∧ t.data = renderDelimited '\t' texts
      ∧ DiffersOnlyInDelimiter c.data t.data
      ∧ ((∀ r, r ∈ rows.elems → ∀ f, f ∈ csvRecord r → ',' ∉ f.data) →
          t.data = commasToTabs c.data)
      ∧ (∀ f : String, ',' ∉ f.data → '\t' ∉ f.data →
          fieldNeedsQuotes ',' f = fieldNeedsQuotes '\t' f) := by
  have hfield : ∀ rec, rec ∈ csvHeader :: rows.elems.map csvRecord →
      rec.map (csvField ',') = rec.map (csvField '\t') := by
    intro rec hrec
    apply List.map_congr_left
    intro f hf
    rcases List.mem_cons.mp hrec with hr | hr
    · subst hr
      exact csvField_congr f (csvHeader_plain f hf).1 (csvHeader_plain f hf).2
    · rw [List.mem_map] at hr
      obtain ⟨r, hr, rfl⟩ := hr
      exact csvField_eq_of_quotes f (h r hr f hf)
  have htexts : (csvHeader :: rows.elems.map csvRecord).map (fun rec => rec.map (csvField ','))
      = (csvHeader :: rows.elems.map csvRecord).map (fun rec => rec.map (csvField '\t')) :=
    List.map_congr_left hfield
  refine ⟨(csvHeader :: rows.elems.map csvRecord).map (fun rec => rec.map (csvField ',')),
    ⟨renderDelimited ','
      ((csvHeader :: rows.elems.map csvRecord).map (fun rec => rec.map (csvField ',')))⟩,
    ⟨renderDelimited '\t'
      ((csvHeader :: rows.elems.map csvRecord).map (fun rec => rec.map (csvField ',')))⟩,
    writeCSV_render ',' (by decide) rows, ?_, rfl, htexts, rfl, rfl,
    differsOnlyInDelimiter_render _, ?_, ?_⟩
  · rw [writeCSV_render '\t' (by decide) rows, htexts]
  · intro hc
    symm
    apply commasToTabs_render
    intro rec hrec l hl
    rw [List.mem_map] at hrec
    obtain ⟨rec0, hrec0, rfl⟩ := hrec
    rw [List.mem_map] at hl
    obtain ⟨f, hf, rfl⟩ := hl
    rcases List.mem_cons.mp hrec0 with hr | hr
    · subst hr
      exact comma_not_mem_csvField ',' f (csvHeader_plain f hf).1
    · rw [List.mem_map] at hr
      obtain ⟨r, hr, rfl⟩ := hr
      exact comma_not_mem_csvField ',' f (hc r hr f hf)
  · intro f hc ht
    exact fieldNeedsQuotes_congr f hc ht

/-- C7 amended, at a row whose name starts with a space and holds a comma and a
quote: it is quoted in both reports, which differ in the seven delimiters of
each line only. -/
theorem csv_tsv_differ_only_in_delimiter_witness :
    writeMainteScheduledServersInCSV ',' plainRows
        = .ok "Zone,ID,Name,HostName,MainteStartAt,HostServerName,MainteURL\nis1a,113000000001,\" web,\"\"1\"\"\",web.example.jp,2024-01-01T00:00:00+09:00,sac-is1-sv001,https://x/1\n"
      ∧ writeMainteScheduledServersInCSV '\t' plainRows
        = .ok "Zone\tID\tName\tHostName\tMainteStartAt\tHostServerName\tMainteURL\nis1a\t113000000001\t\" web,\"\"1\"\"\"\tweb.example.jp\t2024-01-01T00:00:00+09:00\tsac-is1-sv001\thttps://x/1\n"
      ∧ ∃ texts c t, writeMainteScheduledServersInCSV ',' plainRows = .ok c
      ∧ writeMainteScheduledServersInCSV '\t' plainRows = .ok t
      ∧ texts
          = (csvHeader :: plainRows.elems.map csvRecord).map (fun rec => rec.map (csvField ','))
      ∧ texts
          = (csvHeader :: plainRows.elems.map csvRecord).map (fun rec => rec.map (csvField '\t'))
      ∧ c.data = renderDelimited ',' texts
      ∧ t.data = renderDelimited '\t' texts
      ∧ DiffersOnlyInDelimiter c.data t.data
      ∧ ((∀ r, r ∈ plainRows.elems → ∀ f, f ∈ csvRecord r → ',' ∉ f.data) →
          t.data = commasToTabs c.data)
      ∧ (∀ f : String, ',' ∉ f.data → '\t' ∉ f.data →
          fieldNeedsQuotes ',' f = fieldNeedsQuotes '\t' f) :=
  ⟨rfl, rfl, csv_tsv_differ_only_in_delimiter plainRows (by decide)⟩

/-! ## LTSV -/

theorem stringsJoin_eq_intercalate (c : Char) (fs : List String) :
    stringsJoin [c] fs = [c].intercalate (fs.map String.data) := by
  induction fs with
  | nil => rfl
  | cons f fs ih =>
    cases fs with
    | nil => simp [stringsJoin, List.intercalate]
    | cons g gs =>
      have e : stringsJoin [c] (f :: g :: gs) = f.data ++ [c] ++ stringsJoin [c] (g :: gs) := rfl
      rw [e, ih]
      simp [List.intercalate, List.intersperse]

theorem mem_stringsJoin (c x : Char) (fs : List String) (h : x ∈ stringsJoin [c] fs) :
    x = c ∨ ∃ f, f ∈ fs ∧ x ∈ f.data := by
  induction fs with
  | nil => simp [stringsJoin] at h
  | cons f fs ih =>
    cases fs with
    | nil =>
      exact Or.inr ⟨f, List.mem_cons_self _ _, by simpa [stringsJoin] using h⟩
    | cons g gs =>
      have e : stringsJoin [c] (f :: g :: gs) = f.data ++ [c] ++ stringsJoin [c] (g :: gs) := rfl
      rw [e, List.mem_append, List.mem_append, List.mem_singleton] at h
      rcases h with (h | h) | h
      · exact Or.inr ⟨f, List.mem_cons_self _ _, h⟩
      · exact Or.inl h
      · rcases ih h with h1 | ⟨f1, hf1, hx⟩
        · exact Or.inl h1
        · exact Or.inr ⟨f1, List.mem_cons_of_mem _ hf1, hx⟩

theorem flatten_lines_eq_intercalate (lines : List (List Char)) :
    (lines.map (fun l => l ++ ['\n'])).flatten = ['\n'].intercalate (lines ++ [[]]) := by
  induction lines with
  | nil => rfl
  | cons l ls ih =>
    have e : ['\n'].intercalate (l :: (ls ++ [[]])) = l ++ '\n' :: ['\n'].intercalate (ls ++ [[]]) := by
      cases ls with
      | nil => simp [List.intercalate, List.intersperse]
      | cons x xs => simp [List.intercalate, List.intersperse]
    rw [List.map_cons, List.flatten_cons, ih, List.cons_append, e]
    simp

theorem not_mem_label_append (x : Char) (label v : String) (hl : x ∉ label.data)
    (hv : x ∉ v.data) : x ∉ (label ++ v).data := by
  rw [String.data_append, List.mem_append]
  rintro (h | h)
  · exact hl h
  · exact hv h

theorem not_mem_ltsvFields (x : Char) (r : MainteScheduledServer)
    (hx : x ∉ "ZoneIDNameHostNameMainteStartAtHostServerNameMainteURL:".data)
    (h : ∀ v, v ∈ csvRecord r → x ∉ v.data) :
    ∀ l, l ∈ (ltsvFields r).map String.data → x ∉ l := by
  have hz := h r.Zone (by simp [csvRecord])
  have hi := h r.ID (by simp [csvRecord])
  have hn := h r.Name (by simp [csvRecord])
  have hh := h r.HostName (by simp [csvRecord])
  have hs := h r.MainteStartAt (by simp [csvRecord])
  have hv := h r.HostServerName (by simp [csvRecord])
  have hu := h r.MainteURL (by simp [csvRecord])
  have lab : ∀ label : String, (∀ y, y ∈ label.data →
      y ∈ "ZoneIDNameHostNameMainteStartAtHostServerNameMainteURL:".data) → x ∉ label.data :=
    fun label hl hm => hx (hl x hm)
  intro l hl
  simp only [ltsvFields, List.map_cons, List.map_nil, List.mem_cons, List.mem_singleton,
    List.not_mem_nil, or_false] at hl
  rcases hl with hl | hl | hl | hl | hl | hl | hl <;> subst hl
  · exact not_mem_label_append x _ _ (lab _ (by decide)) hz
  · exact not_mem_label_append x _ _ (lab _ (by decide)) hi
  · exact not_mem_label_append x _ _ (lab _ (by decide)) hn
  · exact not_mem_label_append x _ _ (lab _ (by decide)) hh
  · exact not_mem_label_append x _ _ (lab _ (by decide)) hs
  · exact not_mem_label_append x _ _ (lab _ (by decide)) hv
  · exact not_mem_label_append x _ _ (lab _ (by decide)) hu

/-- C8, the claim at a row whose name contains a tab and at one whose name
contains a line break: the line of the first splits on tabs into eight pieces,
not into the seven labelled fields, and the output for the second alone is two
newline-terminated lines, not one. -/
theorem ltsv_tab_in_value_splits :
    writeMainteScheduledServersInLTSV (.mk [tabRow])
        = .ok "Zone:is1a\tID:113000000001\tName:web\t1\tHostName:web.example.jp\tMainteStartAt:2024-01-01T00:00:00+09:00\tHostServerName:sac-is1-sv001\tMainteURL:https://x/1\n"
      ∧ (List.splitOn '\t' (stringsJoin ['\t'] (ltsvFields tabRow))).length = 8
      ∧ List.splitOn '\t' (stringsJoin ['\t'] (ltsvFields tabRow))
          ≠ (ltsvFields tabRow).map String.data
      ∧ writeMainteScheduledServersInLTSV (.mk [lineBreakRow])
        = .ok "Zone:is1a\tID:113000000001\tName:web\n1\tHostName:web.example.jp\tMainteStartAt:2024-01-01T00:00:00+09:00\tHostServerName:sac-is1-sv001\tMainteURL:https://x/1\n"
      ∧ List.splitOn '\n'
          "Zone:is1a\tID:113000000001\tName:web\n1\tHostName:web.example.jp\tMainteStartAt:2024-01-01T00:00:00+09:00\tHostServerName:sac-is1-sv001\tMainteURL:https://x/1\n".data
        = ["Zone:is1a\tID:113000000001\tName:web".data,
           "1\tHostName:web.example.jp\tMainteStartAt:2024-01-01T00:00:00+09:00\tHostServerName:sac-is1-sv001\tMainteURL:https://x/1".data,
           []]
      ∧ List.splitOn '\n'
          "Zone:is1a\tID:113000000001\tName:web\n1\tHostName:web.example.jp\tMainteStartAt:2024-01-01T00:00:00+09:00\tHostServerName:sac-is1-sv001\tMainteURL:https://x/1\n".data
        ≠ [stringsJoin ['\t'] (ltsvFields lineBreakRow), []] := by
  refine ⟨rfl, by decide, by decide, rfl, by decide, by decide⟩

/-- C8 amended: for every list of rows the LTSV output has no header and is, in
row order, the seven labelled fields Zone, ID, Name, HostName, MainteStartAt,
HostServerName, MainteURL of each row joined by tabs and followed by a line
break, the values verbatim (nothing for no row); when no field value contains a
line break these are exactly one newline-terminated line per row, and the line
of a row none of whose field values contains a tab splits on tabs into exactly
its seven labelled fields. -/
theorem ltsv_one_line_per_row (rows : GoSlice MainteScheduledServer) :
    ∃ out, writeMainteScheduledServersInLTSV rows = .ok out
      ∧ out.data
          = (rows.elems.map (fun r => stringsJoin ['\t'] (ltsvFields r) ++ ['\n'])).flatten
      ∧ (∀ r : MainteScheduledServer,
          stringsJoin ['\t'] (ltsvFields r)
            = ['\t'].intercalate
                ["Zone:".data ++ r.Zone.data, "ID:".data ++ r.ID.data,
                 "Name:".data ++ r.Name.data, "HostName:".data ++ r.HostName.data,
                 "MainteStartAt:".data ++ r.MainteStartAt.data,
                 "HostServerName:".data ++ r.HostServerName.data,
                 "MainteURL:".data ++ r.MainteURL.data])
      ∧ (rows.elems = [] → out = "")
      ∧ ((∀ r, r ∈ rows.elems → ∀ v, v ∈ csvRecord r → '\n' ∉ v.data) →
          List.splitOn '\n' out.data
            = rows.elems.map (fun r => stringsJoin ['\t'] (ltsvFields r)) ++ [[]])
      ∧ (∀ r : MainteScheduledServer, (∀ v, v ∈ csvRecord r → '\t' ∉ v.data) →
          List.splitOn '\t' (stringsJoin ['\t'] (ltsvFields r))
            = ["Zone:".data ++ r.Zone.data, "ID:".data ++ r.ID.data,
               "Name:".data ++ r.Name.data, "HostName:".data ++ r.HostName.data,
               "MainteStartAt:".data ++ r.MainteStartAt.data,
               "HostServerName:".data ++ r.HostServerName.data,
               "MainteURL:".data ++ r.MainteURL.data]) := by
  refine ⟨_, rfl, rfl, ?_, ?_, ?_, ?_⟩
  · intro r
    rw [stringsJoin_eq_intercalate]
    simp [ltsvFields, String.data_append]
  · intro he
    show String.mk _ = ""
    rw [he]
    rfl
  · intro h
    show List.splitOn '\n'
        (rows.elems.map (fun r => stringsJoin ['\t'] (ltsvFields r) ++ ['\n'])).flatten = _
    have e : rows.elems.map (fun r => stringsJoin ['\t'] (ltsvFields r) ++ ['\n'])
        = (rows.elems.map (fun r => stringsJoin ['\t'] (ltsvFields r))).map
            (fun l => l ++ ['\n']) := by
      rw [List.map_map]
      rfl
    rw [e, flatten_lines_eq_intercalate]
    apply List.splitOn_intercalate
    · intro l hl
      rw [List.mem_append, List.mem_singleton] at hl
      rcases hl with hl | hl
      · rw [List.mem_map] at hl
        obtain ⟨r, hr, rfl⟩ := hl
        intro hm
        rcases mem_stringsJoin _ _ _ hm with h1 | ⟨f, hf, hx⟩
        · exact absurd h1 (by decide)
        · exact not_mem_ltsvFields '\n' r (by decide) (h r hr) f.data
            (List.mem_map_of_mem _ hf) hx
      · rw [hl]
        exact List.not_mem_nil _
    · simp
  · intro r h
    rw [stringsJoin_eq_intercalate,
      List.splitOn_intercalate _ '\t' (not_mem_ltsvFields '\t' r (by decide) h)
        (by simp [ltsvFields])]
    simp [ltsvFields, String.data_append]

/-- C8 amended, at a row with a tab in its name followed by a row with neither
tab nor line break: two lines are written, one per row, and the line of the
second row splits on tabs into its seven labelled fields. -/
theorem ltsv_one_line_per_row_witness :
    ∃ out, writeMainteScheduledServersInLTSV (.mk [tabRow, plainRow]) = .ok out
      ∧ out = "Zone:is1a\tID:113000000001\tName:web\t1\tHostName:web.example.jp\tMainteStartAt:2024-01-01T00:00:00+09:00\tHostServerName:sac-is1-sv001\tMainteURL:https://x/1\nZone:is1a\tID:113000000001\tName:web 1\tHostName:web.example.jp\tMainteStartAt:2024-01-01T00:00:00+09:00\tHostServerName:sac-is1-sv001\tMainteURL:https://x/1\n"
      ∧ List.splitOn '\n' out.data
          = [stringsJoin ['\t'] (ltsvFields tabRow), stringsJoin ['\t'] (ltsvFields plainRow), []]
      ∧ List.splitOn '\t' (stringsJoin ['\t'] (ltsvFields plainRow))
          = ["Zone:is1a".data, "ID:113000000001".data, "Name:web 1".data,
             "HostName:web.example.jp".data, "MainteStartAt:2024-01-01T00:00:00+09:00".data,
             "HostServerName:sac-is1-sv001".data, "MainteURL:https://x/1".data] := by
  obtain ⟨out, h1, _, _, _, h5, h6⟩ := ltsv_one_line_per_row (.mk [tabRow, plainRow])
  refine ⟨out, h1, ?_, h5 (by decide), ?_⟩
  · have h0 : writeMainteScheduledServersInLTSV (.mk [tabRow, plainRow])
        = .ok "Zone:is1a\tID:113000000001\tName:web\t1\tHostName:web.example.jp\tMainteStartAt:2024-01-01T00:00:00+09:00\tHostServerName:sac-is1-sv001\tMainteURL:https://x/1\nZone:is1a\tID:113000000001\tName:web 1\tHostName:web.example.jp\tMainteStartAt:2024-01-01T00:00:00+09:00\tHostServerName:sac-is1-sv001\tMainteURL:https://x/1\n" :=
      rfl
    rw [h0] at h1
    cases h1
    rfl
  · rw [h6 plainRow (by decide)]
    rfl

end MainteDates
